import Mathlib

/-!
Verification of the response-normalization and report-generation layer of an
AI process-report tool (src/main.py).

Modelling conventions (shallow embedding):
- Python strings are Lean strings; the per-character primitives are defined
  on lists of characters so that everything evaluates by kernel reduction.
- Python dicts are insertion-ordered association lists; assignment replaces
  the value in place when the key exists and appends otherwise, exactly as
  Python dict assignment behaves observably.
- Python floats are rationals, always built with mkRat; float() on decimal
  strings is modelled faithfully for sign/fraction/exponent forms (the exotic
  inf, nan, and underscore-separator forms are not modelled).
- Python exceptions are an explicit error monad (Except PyError); the two
  index accesses guarded by startswith checks (which make an IndexError
  impossible) are modelled with a default value, as noted at their definition.
-/

/-- Python runtime values that can appear in an analysis: everything
json.loads can produce, plus the strings and floats built by the free-text
normalizer. Python float is modelled as a rational number. -/
inductive PyVal where
  | null
  | bool (b : Bool)
  | num (q : ℚ)
  | str (s : String)
  | list (l : List PyVal)
  | dict (d : List (String × PyVal))

/-- The Python exception kinds that the modelled code can raise. -/
inductive PyError where
  | keyError
  | typeError
  | valueError
  | attributeError
  deriving DecidableEq

/-- Whitespace as recognized by Python str.strip() for the ASCII range. -/
def isSpaceChar (c : Char) : Bool :=
  c == ' ' || c == '\t' || c == '\n' || c == '\r' || c == Char.ofNat 11 || c == Char.ofNat 12

/-- Core of Python str.strip(): drop whitespace from both ends. -/
def trimChars (cs : List Char) : List Char :=
  ((cs.dropWhile isSpaceChar).reverse.dropWhile isSpaceChar).reverse

/-- Python s.strip(). -/
def pyStrip (s : String) : String := ⟨trimChars s.data⟩

/-- Character-list core of Python startswith. -/
def startsWithChars : List Char → List Char → Bool
  | [], _ => true
  | _ :: _, [] => false
  | p :: ps, c :: cs => p == c && startsWithChars ps cs

/-- Python line.startswith(lab). -/
def pyStartsWith (line : String) (lab : String) : Bool :=
  startsWithChars lab.data line.data

/-- Helper for splitChar: push a character onto the first fragment. -/
def consHead (c : Char) : List (List Char) → List (List Char)
  | [] => [[c]]
  | l :: ls => (c :: l) :: ls

/-- Character-list core of Python s.split(sep) for a one-character sep. -/
def splitChar (sep : Char) : List Char → List (List Char)
  | [] => [[]]
  | c :: cs => if c == sep then [] :: splitChar sep cs else consHead c (splitChar sep cs)

/-- Python s.split(sep) for a one-character separator. -/
def pySplitAll (sep : Char) (s : String) : List String :=
  (splitChar sep s.data).map (fun l => ⟨l⟩)

/-- Python content.split(chr(10)). -/
def pySplitLines (s : String) : List String := pySplitAll '\n' s

/-- Character-list core of Python s.split(sep, 1): split at the first
occurrence only; no occurrence gives Option.none. -/
def splitOnceChars (sep : Char) : List Char → Option (List Char × List Char)
  | [] => Option.none
  | c :: cs =>
    if c == sep then some ([], cs)
    else
      match splitOnceChars sep cs with
      | some ab => some (c :: ab.1, ab.2)
      | Option.none => Option.none

/-- Python s.split(sep, 1) as a pair, when sep occurs in s. -/
def pySplitOnce (sep : Char) (s : String) : Option (String × String) :=
  match splitOnceChars sep s.data with
  | some ab => some (⟨ab.1⟩, ⟨ab.2⟩)
  | Option.none => Option.none

/-- Python line.split(chr(58))[1]: the segment between the first and second
colon. Every call site is guarded by a startswith check that guarantees a
colon, so index 1 always exists and the default is never returned. -/
def colonIdx1 (line : String) : String := (pySplitAll ':' line).getD 1 ""

/-- Python line.split(chr(58), 1)[1]: everything after the first colon.
Guarded by a startswith check at the call site, so the default is dead. -/
def afterFirstColon (line : String) : String :=
  match pySplitOnce ':' line with
  | some ab => ab.2
  | Option.none => ""

/-- Python sep.join for a single-space separator. -/
def joinSpace : List String → String
  | [] => ""
  | [s] => s
  | s :: rest => s ++ " " ++ joinSpace rest

/-- Join lines with a newline, the inverse of pySplitLines on newline-free
nonempty line lists. -/
def joinLines : List String → String
  | [] => ""
  | [l] => l
  | l :: rest => l ++ "\n" ++ joinLines rest

/-- Numeric value of an ASCII digit. -/
def digitVal (c : Char) : Nat := c.toNat - 48

/-- Take the longest digit run from the front. -/
def takeDigits : List Char → List Char × List Char
  | [] => ([], [])
  | c :: cs =>
    if c.isDigit then
      match takeDigits cs with
      | (ds, rest) => (c :: ds, rest)
    else ([], c :: cs)

/-- Natural number denoted by a digit run. -/
def natOfDigits (ds : List Char) : Nat := ds.foldl (fun a c => 10 * a + digitVal c) 0

/-- Optional leading sign; returns (isNegative, rest). -/
def parseSign : List Char → Bool × List Char
  | '+' :: cs => (false, cs)
  | '-' :: cs => (true, cs)
  | cs => (false, cs)

/-- Assemble a float value from sign, integer digits, fraction digits and a
signed decimal exponent, using only mkRat and integer arithmetic. -/
def floatVal (neg : Bool) (intD fracD : List Char) (eneg : Bool) (emag : Nat) : ℚ :=
  let n : Nat := natOfDigits (intD ++ fracD)
  let sn : Int := if neg then -(n : Int) else (n : Int)
  if eneg then mkRat sn (10 ^ (fracD.length + emag))
  else mkRat (sn * (10 : Int) ^ emag) (10 ^ fracD.length)

/-- Python float(s) on an already stripped string: optional sign, digits with
optional fraction, optional exponent. Returns Option.none exactly when Python
raises ValueError (inf/nan/underscores are not modelled). -/
def parseFloat (s : String) : Option ℚ :=
  let sp := parseSign s.data
  let ip := takeDigits sp.2
  let fres : Option (List Char × List Char) :=
    match ip.2 with
    | '.' :: t =>
      match takeDigits t with
      | (fd, r) => some (fd, r)
    | _ => Option.none
  let fracD := match fres with | some f => f.1 | Option.none => []
  let rest2 := match fres with | some f => f.2 | Option.none => ip.2
  if ip.1.isEmpty && fracD.isEmpty then Option.none
  else
    match rest2 with
    | [] => some (floatVal sp.1 ip.1 fracD false 0)
    | e :: rest3 =>
      if e == 'e' || e == 'E' then
        let esp := parseSign rest3
        let ed := takeDigits esp.2
        if ed.1.isEmpty || !ed.2.isEmpty then Option.none
        else some (floatVal sp.1 ip.1 fracD esp.1 (natOfDigits ed.1))
      else Option.none

/-- Key membership in a dict association list. -/
def keyMem (k : String) : List (String × PyVal) → Bool
  | [] => false
  | p :: t => if p.1 = k then true else keyMem k t

/-- Python dict lookup d.get(k) / d[k] as an Option. -/
def dlookup (k : String) : List (String × PyVal) → Option PyVal
  | [] => Option.none
  | p :: t => if p.1 = k then some p.2 else dlookup k t

/-- Replace the value stored under an existing key, keeping its position. -/
def setKey (k : String) (v : PyVal) : List (String × PyVal) → List (String × PyVal)
  | [] => []
  | p :: t => if p.1 = k then (p.1, v) :: setKey k v t else p :: setKey k v t

/-- Python dict assignment d[k] = v: replace in place when k exists,
append otherwise. -/
def dictUpdate (d : List (String × PyVal)) (k : String) (v : PyVal) : List (String × PyVal) :=
  if keyMem k d then setKey k v d else d ++ [(k, v)]

/-- Python analysis[k][field] = v on a dict of dicts: KeyError when k is
absent, TypeError when the stored value is not a dict. -/
def setItem (d : List (String × PyVal)) (k : String) (field : String) (v : PyVal) :
    Except PyError (List (String × PyVal)) :=
  match dlookup k d with
  | some (PyVal.dict e) => Except.ok (dictUpdate d k (PyVal.dict (dictUpdate e field v)))
  | some _ => Except.error PyError.typeError
  | Option.none => Except.error PyError.keyError

/-- State of the anthropic/openai free-text parsing loop: the mapping built
so far, the current process (Python None as Option.none), and the
accumulating description fragments. -/
structure ParseState where
  analysis : List (String × PyVal)
  current : Option String
  descr : List String

/-- Python truthiness of the current_process variable: None and the empty
string are falsy. -/
def truthyCur : Option String → Bool
  | Option.none => false
  | some s => !(s == "")

/-- Value stored for a threat score text: float(txt) on success, the string
N/A on ValueError (src/main.py lines 126-129). -/
def scoreValOf (txt : String) : PyVal :=
  match parseFloat txt with
  | some q => PyVal.num q
  | Option.none => PyVal.str "N/A"

/-- The flush step shared by the Process Name branch and the loop epilogue:
if current_process is truthy, store the joined description fragments under
its description key (src/main.py lines 118-119 and 134-135). -/
def flushCurrent (st : ParseState) : Except PyError (List (String × PyVal)) :=
  match st.current with
  | some p =>
    if p == "" then Except.ok st.analysis
    else setItem st.analysis p "description" (PyVal.str (joinSpace st.descr))
  | Option.none => Except.ok st.analysis

/-- One iteration of the anthropic free-text parsing loop
(src/main.py lines 116-131). -/
def stepAnthropic (st : ParseState) (line : String) : Except PyError ParseState :=
  if pyStartsWith line "Process Name:" then
    match flushCurrent st with
    | Except.ok a =>
      let name := pyStrip (colonIdx1 line)
      Except.ok ⟨dictUpdate a name (PyVal.dict []), some name, []⟩
    | Except.error e => Except.error e
  else if pyStartsWith line "Description:" then
    Except.ok { st with descr := st.descr ++ [pyStrip (afterFirstColon line)] }
  else if pyStartsWith line "Threat Score:" then
    match st.current with
    | some p =>
      match setItem st.analysis p "threat_score" (scoreValOf (pyStrip (colonIdx1 line))) with
      | Except.ok a => Except.ok { st with analysis := a }
      | Except.error e => Except.error e
    | Option.none => Except.error PyError.keyError
  else if !(pyStrip line == "") && truthyCur st.current then
    Except.ok { st with descr := st.descr ++ [pyStrip line] }
  else Except.ok st

/-- Run the anthropic loop over a list of lines. -/
def runLinesA : ParseState → List String → Except PyError ParseState
  | st, [] => Except.ok st
  | st, l :: ls =>
    match stepAnthropic st l with
    | Except.ok st2 => runLinesA st2 ls
    | Except.error e => Except.error e

/-- The anthropic parse of a line list: loop then final flush
(src/main.py lines 112-135). -/
def parseA (lines : List String) : Except PyError (List (String × PyVal)) :=
  match runLinesA ⟨[], Option.none, []⟩ lines with
  | Except.ok st => flushCurrent st
  | Except.error e => Except.error e

/-- The anthropic normalizer applied to the response content: any exception
during parsing is caught at the function boundary and yields the empty
mapping (src/main.py lines 139-143). -/
def analyze_processes_anthropic (content : String) : PyVal :=
  match parseA (pySplitLines content) with
  | Except.ok a => PyVal.dict a
  | Except.error _ => PyVal.dict []

/-- One iteration of the openai free-text parsing loop
(src/main.py lines 256-271), a verbatim copy of the anthropic loop. -/
def stepOpenai (st : ParseState) (line : String) : Except PyError ParseState :=
  if pyStartsWith line "Process Name:" then
    match flushCurrent st with
    | Except.ok a =>
      let name := pyStrip (colonIdx1 line)
      Except.ok ⟨dictUpdate a name (PyVal.dict []), some name, []⟩
    | Except.error e => Except.error e
  else if pyStartsWith line "Description:" then
    Except.ok { st with descr := st.descr ++ [pyStrip (afterFirstColon line)] }
  else if pyStartsWith line "Threat Score:" then
    match st.current with
    | some p =>
      match setItem st.analysis p "threat_score" (scoreValOf (pyStrip (colonIdx1 line))) with
      | Except.ok a => Except.ok { st with analysis := a }
      | Except.error e => Except.error e
    | Option.none => Except.error PyError.keyError
  else if !(pyStrip line == "") && truthyCur st.current then
    Except.ok { st with descr := st.descr ++ [pyStrip line] }
  else Except.ok st

/-- Run the openai loop over a list of lines. -/
def runLinesO : ParseState → List String → Except PyError ParseState
  | st, [] => Except.ok st
  | st, l :: ls =>
    match stepOpenai st l with
    | Except.ok st2 => runLinesO st2 ls
    | Except.error e => Except.error e

/-- The openai parse of a line list (src/main.py lines 252-275). -/
def parseO (lines : List String) : Except PyError (List (String × PyVal)) :=
  match runLinesO ⟨[], Option.none, []⟩ lines with
  | Except.ok st => flushCurrent st
  | Except.error e => Except.error e

/-- The openai normalizer applied to the response content
(src/main.py lines 279-282). -/
def analyze_processes_openai (content : String) : PyVal :=
  match parseO (pySplitLines content) with
  | Except.ok a => PyVal.dict a
  | Except.error _ => PyVal.dict []

/-- State of the ollama free-text fallback loop: mapping plus current
process; there is no description accumulator in this variant. -/
structure OllamaState where
  analysis : List (String × PyVal)
  current : Option String

/-- One iteration of the ollama fallback loop (src/main.py lines 184-199):
only lines containing a colon are considered; the key is the text before the
first colon, stripped; Description overwrites rather than accumulates. -/
def stepOllama (st : OllamaState) (line : String) : Except PyError OllamaState :=
  match pySplitOnce ':' line with
  | Option.none => Except.ok st
  | some kv =>
    let key := pyStrip kv.1
    let value := pyStrip kv.2
    if key == "Process Name" then
      Except.ok ⟨dictUpdate st.analysis value (PyVal.dict []), some value⟩
    else if key == "Description" && truthyCur st.current then
      match st.current with
      | some p =>
        match setItem st.analysis p "description" (PyVal.str value) with
        | Except.ok a => Except.ok ⟨a, st.current⟩
        | Except.error e => Except.error e
      | Option.none => Except.error PyError.keyError
    else if key == "Threat Score" && truthyCur st.current then
      match st.current with
      | some p =>
        match setItem st.analysis p "threat_score" (scoreValOf value) with
        | Except.ok a => Except.ok ⟨a, st.current⟩
        | Except.error e => Except.error e
      | Option.none => Except.error PyError.keyError
    else Except.ok st

/-- Run the ollama fallback loop over a list of lines. -/
def runLinesOll : OllamaState → List String → Except PyError OllamaState
  | st, [] => Except.ok st
  | st, l :: ls =>
    match stepOllama st l with
    | Except.ok st2 => runLinesOll st2 ls
    | Except.error e => Except.error e

/-- The ollama free-text fallback parse of the whole response text. -/
def ollamaFallback (text : String) : Except PyError (List (String × PyVal)) :=
  match runLinesOll ⟨[], Option.none⟩ (pySplitLines text) with
  | Except.ok st => Except.ok st.analysis
  | Except.error e => Except.error e

/-- JSON whitespace. -/
def jsonWs (c : Char) : Bool := c == ' ' || c == '\t' || c == '\n' || c == '\r'

/-- Skip JSON whitespace. -/
def skipWs (cs : List Char) : List Char := cs.dropWhile jsonWs

/-- Value of a hexadecimal digit. -/
def hexDigitVal (c : Char) : Option Nat :=
  if '0' ≤ c ∧ c ≤ '9' then some (c.toNat - 48)
  else if 'a' ≤ c ∧ c ≤ 'f' then some (c.toNat - 87)
  else if 'A' ≤ c ∧ c ≤ 'F' then some (c.toNat - 55)
  else Option.none

/-- JSON string body after the opening quote: returns the decoded characters
and the input remaining after the closing quote. Surrogate-pair combination
for escaped characters beyond the BMP is not modelled. -/
def jString : Nat → List Char → Option (List Char × List Char)
  | 0, _ => Option.none
  | _ + 1, [] => Option.none
  | fuel + 1, c :: rest =>
    if c == '"' then some ([], rest)
    else if c == '\\' then
      match rest with
      | [] => Option.none
      | e :: rest2 =>
        if e == 'u' then
          match rest2 with
          | h1 :: h2 :: h3 :: h4 :: rest3 =>
            match hexDigitVal h1, hexDigitVal h2, hexDigitVal h3, hexDigitVal h4 with
            | some x1, some x2, some x3, some x4 =>
              match jString fuel rest3 with
              | some sr => some (Char.ofNat (((x1 * 16 + x2) * 16 + x3) * 16 + x4) :: sr.1, sr.2)
              | Option.none => Option.none
            | _, _, _, _ => Option.none
          | _ => Option.none
        else
          match
            (if e == '"' then some '"'
             else if e == '\\' then some '\\'
             else if e == '/' then some '/'
             else if e == 'b' then some (Char.ofNat 8)
             else if e == 'f' then some (Char.ofNat 12)
             else if e == 'n' then some '\n'
             else if e == 'r' then some '\r'
             else if e == 't' then some '\t'
             else Option.none) with
          | some d =>
            match jString fuel rest2 with
            | some sr => some (d :: sr.1, sr.2)
            | Option.none => Option.none
          | Option.none => Option.none
    else
      match jString fuel rest with
      | some sr => some (c :: sr.1, sr.2)
      | Option.none => Option.none

/-- JSON number per the strict JSON grammar (no leading zeros, mandatory
digits around the dot on the fraction side, optional exponent). -/
def jNumber (cs : List Char) : Option (ℚ × List Char) :=
  let sp : Bool × List Char :=
    match cs with
    | '-' :: t => (true, t)
    | _ => (false, cs)
  let ip := takeDigits sp.2
  if ip.1.isEmpty then Option.none
  else if decide (ip.1.length > 1) && (ip.1.headD '0' == '0') then Option.none
  else
    let fres : Option (List Char × List Char) :=
      match ip.2 with
      | '.' :: t =>
        match takeDigits t with
        | ([], _) => Option.none
        | (fd, r) => some (fd, r)
      | _ => some ([], ip.2)
    match fres with
    | Option.none => Option.none
    | some fr =>
      match fr.2 with
      | e :: t =>
        if e == 'e' || e == 'E' then
          let esp : Bool × List Char :=
            match t with
            | '+' :: t2 => (false, t2)
            | '-' :: t2 => (true, t2)
            | _ => (false, t)
          let ed := takeDigits esp.2
          if ed.1.isEmpty then Option.none
          else some (floatVal sp.1 ip.1 fr.1 esp.1 (natOfDigits ed.1), ed.2)
        else some (floatVal sp.1 ip.1 fr.1 false 0, fr.2)
      | [] => some (floatVal sp.1 ip.1 fr.1 false 0, [])

/-- Task marker for the single-function JSON recursive descent. -/
inductive JTask where
  | value (cs : List Char)
  | members (cs : List Char) (acc : List (String × PyVal))
  | items (cs : List Char) (acc : List PyVal)

/-- Recursive-descent core of json.loads, fuelled so that it is structurally
recursive. The value task expects its input to start at a value; members and
items parse the inside of an object or array. Duplicate object keys keep the
last value, as Python does. -/
def jRun : Nat → JTask → Option (PyVal × List Char)
  | 0, _ => Option.none
  | fuel + 1, JTask.value cs =>
    match cs with
    | [] => Option.none
    | c :: rest =>
      if c == '"' then
        match jString (rest.length + 1) rest with
        | some sr => some (PyVal.str ⟨sr.1⟩, sr.2)
        | Option.none => Option.none
      else if c == '{' then
        match skipWs rest with
        | '}' :: r2 => some (PyVal.dict [], r2)
        | cs1 => jRun fuel (JTask.members cs1 [])
      else if c == '[' then
        match skipWs rest with
        | ']' :: r2 => some (PyVal.list [], r2)
        | cs1 => jRun fuel (JTask.items cs1 [])
      else if startsWithChars "true".data cs then some (PyVal.bool true, cs.drop 4)
      else if startsWithChars "false".data cs then some (PyVal.bool false, cs.drop 5)
      else if startsWithChars "null".data cs then some (PyVal.null, cs.drop 4)
      else
        match jNumber cs with
        | some qr => some (PyVal.num qr.1, qr.2)
        | Option.none => Option.none
  | fuel + 1, JTask.members cs acc =>
    match cs with
    | '"' :: rest =>
      match jString (rest.length + 1) rest with
      | some keyR =>
        match skipWs keyR.2 with
        | ':' :: r2 =>
          match jRun fuel (JTask.value (skipWs r2)) with
          | some vr =>
            match skipWs vr.2 with
            | ',' :: r4 => jRun fuel (JTask.members (skipWs r4) (dictUpdate acc ⟨keyR.1⟩ vr.1))
            | '}' :: r4 => some (PyVal.dict (dictUpdate acc ⟨keyR.1⟩ vr.1), r4)
            | _ => Option.none
          | Option.none => Option.none
        | _ => Option.none
      | Option.none => Option.none
    | _ => Option.none
  | fuel + 1, JTask.items cs acc =>
    match jRun fuel (JTask.value cs) with
    | some vr =>
      match skipWs vr.2 with
      | ',' :: r2 => jRun fuel (JTask.items (skipWs r2) (acc ++ [vr.1]))
      | ']' :: r2 => some (PyVal.list (acc ++ [vr.1]), r2)
      | _ => Option.none
    | Option.none => Option.none

/-- Python json.loads: parse one JSON value covering the whole payload,
allowing surrounding whitespace; Option.none models JSONDecodeError. -/
def jsonLoads (s : String) : Option PyVal :=
  match jRun (s.data.length + 1) (JTask.value (skipWs s.data)) with
  | some vr => if (skipWs vr.2).isEmpty then some vr.1 else Option.none
  | Option.none => Option.none

/-- Python len(): defined for strings, lists and dicts; TypeError otherwise.
The parsed ollama response is passed to len() before being returned. -/
def pyLen : PyVal → Except PyError Nat
  | PyVal.str s => Except.ok s.length
  | PyVal.list l => Except.ok l.length
  | PyVal.dict d => Except.ok d.length
  | _ => Except.error PyError.typeError

/-- True exactly for dict values. -/
def isMapping : PyVal → Bool
  | PyVal.dict _ => true
  | _ => false

/-- The ollama normalizer on the response text (src/main.py lines 177-206):
try json.loads and accept its result verbatim (the len() call in the success
message raises TypeError on numbers, booleans and null, which the enclosing
handler turns into an empty mapping); on decode failure run the free-text
fallback loop; any exception there also degrades to the empty mapping. -/
def ollamaNormalize (text : String) : PyVal :=
  match jsonLoads text with
  | some v =>
    match pyLen v with
    | Except.ok _ => v
    | Except.error _ => PyVal.dict []
  | Option.none =>
    match ollamaFallback text with
    | Except.ok a => PyVal.dict a
    | Except.error _ => PyVal.dict []

/-- Outcome of the ollama backend call as seen by the parsing code: a
transport error (requests exceptions, caught at src/main.py lines 211-214),
a JSON body without a response field (lines 207-210), or the response text. -/
inductive OllamaRaw where
  | transportError
  | missingResponse
  | responseText (text : String)

/-- The whole ollama analysis function on the backend outcome
(src/main.py lines 145-218). -/
def analyze_processes_ollama : OllamaRaw → PyVal
  | OllamaRaw.transportError => PyVal.dict []
  | OllamaRaw.missingResponse => PyVal.dict []
  | OllamaRaw.responseText t => ollamaNormalize t

/-- Outcome of the anthropic backend call as seen by the function boundary:
the API call itself raised (so the local response variable was never bound),
or a response whose extracted text content is the given string. -/
inductive AnthropicRaw where
  | transportError
  | responseContent (content : String)

/-- The whole anthropic analysis function on the backend outcome
(src/main.py lines 93-143). When the API call itself raised, the except
handler at lines 139-143 evaluates the f-string interpolating
response.content (line 142) with the local response unbound, so the handler
raises UnboundLocalError past the boundary and no mapping is returned;
Option.none models that escaping exception. When a response was obtained,
every exception of the parsing code reaches the same handler with response
bound, so the boundary returns a dict. -/
def analyze_processes_anthropic_outcome : AnthropicRaw → Option PyVal
  | AnthropicRaw.transportError => Option.none
  | AnthropicRaw.responseContent c => some (analyze_processes_anthropic c)

/-- Outcome of the openai backend call as seen by the function boundary. -/
inductive OpenaiRaw where
  | transportError
  | responseContent (content : String)

/-- The whole openai analysis function on the backend outcome
(src/main.py lines 220-282). Its except handler (lines 279-282) references
nothing unbound and returns the empty dict, so a failed API call degrades to
the empty mapping. -/
def analyze_processes_openai_outcome : OpenaiRaw → Option PyVal
  | OpenaiRaw.transportError => some (PyVal.dict [])
  | OpenaiRaw.responseContent c => some (analyze_processes_openai c)

/-- One process record of the snapshot, as used by the report generator. -/
structure ProcessRecord where
  pid : Int
  name : String
  exe : String
  status : String
  username : String
  cpu_percent : ℚ
  memory_percent : ℚ

/-- The claim-relevant content of one rendered report section; the HTML
string assembly around these fields is not modelled. threat_score_num is the
data-threat-score sort attribute; threat_score_display is the shown score
(Option.none renders as N/A). -/
structure ReportSection where
  name : String
  username : String
  status : String
  threat_score_num : ℚ
  threat_score_display : Option ℚ
  threat_class : String
  descriptionShown : String
  searchLink : Option String

/-- Python float(x) on an arbitrary value: numbers and booleans convert,
strings are stripped and parsed (ValueError on failure), and every other
type raises TypeError. -/
def pyFloat : PyVal → Except PyError ℚ
  | PyVal.num q => Except.ok q
  | PyVal.bool b => Except.ok (if b then 1 else 0)
  | PyVal.str s =>
    match parseFloat (pyStrip s) with
    | some q => Except.ok q
    | Option.none => Except.error PyError.valueError
  | _ => Except.error PyError.typeError

/-- Python v.get(k, default): AttributeError unless v is a dict. -/
def pyGet (v : PyVal) (k : String) (default : PyVal) : Except PyError PyVal :=
  match v with
  | PyVal.dict d => Except.ok ((dlookup k d).getD default)
  | _ => Except.error PyError.attributeError

/-- Python description == a string literal: False for non-string values. -/
def pyValEqStr (v : PyVal) (s : String) : Bool :=
  match v with
  | PyVal.str t => t == s
  | _ => false

/-- Remove the first occurrence of pat, the core of s.replace(pat, empty, 1). -/
def removeFirstChars (pat : List Char) : List Char → List Char
  | [] => []
  | c :: rest =>
    if startsWithChars pat (c :: rest) then (c :: rest).drop pat.length
    else c :: removeFirstChars pat rest

/-- Python s.replace(pat, empty string, 1). -/
def pyReplaceOnceEmpty (pat : String) (s : String) : String :=
  ⟨removeFirstChars pat.data s.data⟩

/-- The description text as interpolated into the section: Python
description.replace of the Typical function label then strip; AttributeError
when the value is not a string (src/main.py line 401). -/
def pyShownDescription : PyVal → Except PyError String
  | PyVal.str s => Except.ok (pyStrip (pyReplaceOnceEmpty "Typical function:" s))
  | _ => Except.error PyError.attributeError

/-- UTF-8 bytes of a character. -/
def utf8Bytes (c : Char) : List Nat :=
  let n := c.toNat
  if n < 128 then [n]
  else if n < 2048 then [192 + n / 64, 128 + n % 64]
  else if n < 65536 then [224 + n / 4096, 128 + n / 64 % 64, 128 + n % 64]
  else [240 + n / 262144, 128 + n / 4096 % 64, 128 + n / 64 % 64, 128 + n % 64]

/-- Uppercase hexadecimal digit. -/
def hexUpper (n : Nat) : Char := if n < 10 then Char.ofNat (48 + n) else Char.ofNat (55 + n)

/-- Percent-encoding of one character under urllib.parse.quote with the
default safe slash. -/
def quoteChar (c : Char) : List Char :=
  if c.isAlphanum || c == '_' || c == '.' || c == '-' || c == '~' || c == '/' then [c]
  else (utf8Bytes c).foldr (fun b acc => '%' :: hexUpper (b / 16) :: hexUpper (b % 16) :: acc) []

/-- Python urllib.parse.quote(s). -/
def pyQuote (s : String) : String := ⟨s.data.foldr (fun c acc => quoteChar c ++ acc) []⟩

/-- The duckduckgo search link generated for a process name
(src/main.py line 391). -/
def searchURL (name : String) : String := "https://duckduckgo.com/?q=" ++ pyQuote name

/-- The threat-score bucketing of the report (src/main.py lines 380-385). -/
def bucketClass (q : ℚ) : String :=
  if q < 4 then "threat-low" else if q < 7 then "threat-medium" else "threat-high"

/-- The try/except around float(threat_score) in the report loop
(src/main.py lines 377-389): a parsed score keeps its value, class by
bucket; ValueError gives sort value -1, display N/A, class low; any other
exception (for example TypeError on a null score) propagates. -/
def scoreTriple (threat_score : PyVal) : Except PyError (ℚ × Option ℚ × String) :=
  match pyFloat threat_score with
  | Except.ok q => Except.ok (q, some q, bucketClass q)
  | Except.error PyError.valueError => Except.ok (-1, Option.none, "threat-low")
  | Except.error e => Except.error e

/-- One iteration of the report loop (src/main.py lines 372-406). -/
def renderSection (analysis : PyVal) (p : ProcessRecord) : Except PyError ReportSection :=
  match pyGet analysis p.name (PyVal.dict []) with
  | Except.error e => Except.error e
  | Except.ok pa =>
    match pyGet pa "description" (PyVal.str "No analysis available") with
    | Except.error e => Except.error e
    | Except.ok description =>
      match pyGet pa "threat_score" (PyVal.str "N/A") with
      | Except.error e => Except.error e
      | Except.ok threat_score =>
        match scoreTriple threat_score with
        | Except.error e => Except.error e
        | Except.ok triple =>
          let searchLink :=
            if pyValEqStr description "No analysis available" then some (searchURL p.name)
            else Option.none
          match pyShownDescription description with
          | Except.error e => Except.error e
          | Except.ok shown =>
            Except.ok
              { name := p.name, username := p.username, status := p.status,
                threat_score_num := triple.1, threat_score_display := triple.2.1,
                threat_class := triple.2.2, descriptionShown := shown,
                searchLink := searchLink }

/-- The report loop over all processes. -/
def renderAll (analysis : PyVal) : List ProcessRecord → Except PyError (List ReportSection)
  | [] => Except.ok []
  | p :: ps =>
    match renderSection analysis p with
    | Except.ok sec =>
      match renderAll analysis ps with
      | Except.ok secs => Except.ok (sec :: secs)
      | Except.error e => Except.error e
    | Except.error e => Except.error e

/-- generate_report restricted to its claim-relevant content: one section per
process record, in order (src/main.py lines 284-416). -/
def generate_report (processes : List ProcessRecord) (analysis : PyVal) :
    Except PyError (List ReportSection) :=
  renderAll analysis processes

/-- The report stage of main (src/main.py lines 452-466): an exception in
generate_report escapes to the top-level handler, and no report is rendered,
saved, or displayed; Option.none models that outcome. -/
def mainReportStage (processes : List ProcessRecord) (analysis : PyVal) :
    Option (List ReportSection) :=
  match generate_report processes analysis with
  | Except.ok secs => some secs
  | Except.error _ => Option.none

/-- Reading helper: the entry stored under a name in a mapping. -/
def entryAt (v : PyVal) (k : String) : Option PyVal :=
  match v with
  | PyVal.dict a => dlookup k a
  | _ => Option.none

/-- Reading helper: the description string of the entry stored under a name,
when the entry is a dict with a string description. -/
def descrOf (v : PyVal) (k : String) : Option String :=
  match entryAt v k with
  | some (PyVal.dict e) =>
    match dlookup "description" e with
    | some (PyVal.str d) => some d
    | _ => Option.none
  | _ => Option.none

/-- Reading helper: the threat score value of the entry stored under a name. -/
def threatOf (v : PyVal) (k : String) : Option PyVal :=
  match entryAt v k with
  | some (PyVal.dict e) => dlookup "threat_score" e
  | _ => Option.none

/-- The process_analysis value of the report loop: the entry for the name,
or an empty dict. -/
def paOf (analysis : PyVal) (name : String) : PyVal :=
  match entryAt analysis name with
  | some pa => pa
  | Option.none => PyVal.dict []

/-- The raw description value fetched by the report loop. -/
def rawDescription (analysis : PyVal) (name : String) : PyVal :=
  match paOf analysis name with
  | PyVal.dict e => (dlookup "description" e).getD (PyVal.str "No analysis available")
  | _ => PyVal.str "No analysis available"

/-- The raw threat score value fetched by the report loop. -/
def rawThreatScore (analysis : PyVal) (name : String) : PyVal :=
  match paOf analysis name with
  | PyVal.dict e => (dlookup "threat_score" e).getD (PyVal.str "N/A")
  | _ => PyVal.str "N/A"

/-- The section the report loop emits for one process when no exception
occurs, written with the reading helpers; used to state what a successful
report contains. -/
def sectionOf (analysis : PyVal) (p : ProcessRecord) : ReportSection :=
  let description := rawDescription analysis p.name
  let triple : ℚ × Option ℚ × String :=
    match scoreTriple (rawThreatScore analysis p.name) with
    | Except.ok tr => tr
    | Except.error _ => (-1, Option.none, "threat-low")
  { name := p.name, username := p.username, status := p.status,
    threat_score_num := triple.1, threat_score_display := triple.2.1,
    threat_class := triple.2.2,
    descriptionShown :=
      match description with
      | PyVal.str s => pyStrip (pyReplaceOnceEmpty "Typical function:" s)
      | _ => "",
    searchLink :=
      if pyValEqStr description "No analysis available" then some (searchURL p.name)
      else Option.none }

/-- A well-typed analysis entry in the sense of the data model: a dict whose
description, when present, is a string, and whose threat score, when
present, is a number, a string, or a boolean. -/
def WFEntry : PyVal → Bool
  | PyVal.dict e =>
    (match dlookup "description" e with
     | some (PyVal.str _) => true
     | Option.none => true
     | _ => false) &&
    (match dlookup "threat_score" e with
     | some (PyVal.str _) => true
     | some (PyVal.num _) => true
     | some (PyVal.bool _) => true
     | Option.none => true
     | _ => false)
  | _ => false

/-- A well-typed AnalysisResult: a mapping whose entries are all well typed. -/
def WFAnalysis : PyVal → Bool
  | PyVal.dict a => a.all (fun kv => WFEntry kv.2)
  | _ => false

/-- One body line of a free-text block: an explicit description line, a
threat score line, or a bare continuation line. -/
inductive BodyLine where
  | descrLine (d : String)
  | scoreLine (s : String)
  | contLine (c : String)
  deriving DecidableEq

/-- One free-text block: a Process Name line followed by body lines. -/
structure Block where
  name : String
  body : List BodyLine
  deriving DecidableEq

/-- The rendered text of a body line. -/
def bodyLineText : BodyLine → String
  | BodyLine.descrLine d => "Description: " ++ d
  | BodyLine.scoreLine s => "Threat Score: " ++ s
  | BodyLine.contLine c => c

/-- The lines of one block. -/
def blockLines (b : Block) : List String :=
  ("Process Name: " ++ b.name) :: b.body.map bodyLineText

/-- The lines of a block list. -/
def linesOf : List Block → List String
  | [] => []
  | b :: t => blockLines b ++ linesOf t

/-- The payload string of a block list. -/
def payloadOf (bs : List Block) : String := joinLines (linesOf bs)

/-- The description contributions of a body, in order: stripped description
values and stripped continuation lines. -/
def contribs : List BodyLine → List String
  | [] => []
  | BodyLine.descrLine d :: t => pyStrip d :: contribs t
  | BodyLine.scoreLine _ :: t => contribs t
  | BodyLine.contLine c :: t => pyStrip c :: contribs t

/-- The threat-score field updates performed by a body, starting from a
given entry dict: each score line overwrites the threat_score key. -/
def scoreFieldsFrom (d : List (String × PyVal)) : List BodyLine → List (String × PyVal)
  | [] => d
  | BodyLine.scoreLine s :: t => scoreFieldsFrom (dictUpdate d "threat_score" (scoreValOf (pyStrip s))) t
  | BodyLine.descrLine _ :: t => scoreFieldsFrom d t
  | BodyLine.contLine _ :: t => scoreFieldsFrom d t

/-- The analysis entry that one block produces: its score fields, then the
description set at flush time to the space-joined contributions. -/
def entryOf (b : Block) : PyVal :=
  PyVal.dict (dictUpdate (scoreFieldsFrom [] b.body) "description"
    (PyVal.str (joinSpace (contribs b.body))))

/-- The mapping update performed by one block. -/
def updB (a : List (String × PyVal)) (b : Block) : List (String × PyVal) :=
  dictUpdate a b.name (entryOf b)

/-- Well-formedness of a body line as free-text payload material: no
embedded newline; a score value must not itself contain a colon; a
continuation line is non-blank and does not start with any of the three
labels. -/
def WFBody : BodyLine → Prop
  | BodyLine.descrLine d => '\n' ∉ d.data
  | BodyLine.scoreLine s => '\n' ∉ s.data ∧ ':' ∉ s.data
  | BodyLine.contLine c =>
    '\n' ∉ c.data ∧ pyStrip c ≠ "" ∧
    pyStartsWith c "Process Name:" = false ∧
    pyStartsWith c "Description:" = false ∧
    pyStartsWith c "Threat Score:" = false

instance : DecidablePred WFBody := fun bl =>
  match bl with
  | BodyLine.descrLine d => inferInstanceAs (Decidable ('\n' ∉ d.data))
  | BodyLine.scoreLine _ => inferInstanceAs (Decidable (_ ∧ _))
  | BodyLine.contLine _ => inferInstanceAs (Decidable (_ ∧ _ ∧ _ ∧ _ ∧ _))

/-- Well-formedness of a block: nonempty stripped name without colons or
newlines, and a well-formed body. -/
def WFBlock (b : Block) : Prop :=
  b.name ≠ "" ∧ pyStrip b.name = b.name ∧ ':' ∉ b.name.data ∧ '\n' ∉ b.name.data ∧
    ∀ bl ∈ b.body, WFBody bl

instance : DecidablePred WFBlock := fun b =>
  inferInstanceAs (Decidable (_ ∧ _ ∧ _ ∧ _ ∧ ∀ bl ∈ b.body, WFBody bl))

/-- Well-formedness of a block list. -/
def WFBlocks (bs : List Block) : Prop := ∀ b ∈ bs, WFBlock b

instance : DecidablePred WFBlocks := fun bs =>
  inferInstanceAs (Decidable (∀ b ∈ bs, WFBlock b))

/-- The keys of a dict association list, in order. -/
def keysOf (a : List (String × PyVal)) : List String := a.map Prod.fst

/-- Unique keys, the invariant of every Python-built dict. -/
def UniqKeys (a : List (String × PyVal)) : Prop := (keysOf a).Nodup

/-- The text of s up to (not including) its first colon. -/
def untilColon (s : String) : String := ⟨s.data.takeWhile (fun c => !(c == ':'))⟩

/-- The free-text parse loop followed by the final flush, starting from an
arbitrary state; parseA is this combinator at the initial state. -/
def runThenFlush (st : ParseState) (lines : List String) :
    Except PyError (List (String × PyVal)) :=
  match runLinesA st lines with
  | Except.ok st2 => flushCurrent st2
  | Except.error e => Except.error e

theorem keyMem_iff_mem_keysOf (k : String) (d : List (String × PyVal)) :
    keyMem k d = true ↔ k ∈ keysOf d := by
  induction d with
  | nil => simp [keyMem, keysOf]
  | cons p t ih =>
    simp only [keyMem, keysOf, List.map_cons, List.mem_cons]
    by_cases h : p.1 = k
    · simp [h]
    · simp only [if_neg h]
      rw [ih]
      unfold keysOf
      constructor
      · exact fun hm => Or.inr hm
      · rintro (hm | hm)
        · exact absurd hm.symm h
        · exact hm

theorem keyMem_eq_false_iff (k : String) (d : List (String × PyVal)) :
    keyMem k d = false ↔ dlookup k d = Option.none := by
  induction d with
  | nil => simp [keyMem, dlookup]
  | cons p t ih =>
    by_cases h : p.1 = k <;> simp [keyMem, dlookup, h, ih]

theorem keyMem_false_of_ne_true {k : String} {d : List (String × PyVal)}
    (h : ¬ keyMem k d = true) : keyMem k d = false := by
  revert h; cases keyMem k d <;> simp

theorem setKey_of_not_keyMem {k : String} {v : PyVal} {d : List (String × PyVal)}
    (h : keyMem k d = false) : setKey k v d = d := by
  induction d with
  | nil => rfl
  | cons p t ih =>
    simp only [keyMem] at h
    by_cases hp : p.1 = k
    · simp [hp] at h
    · simp only [setKey, if_neg hp]
      simp only [if_neg hp] at h
      rw [ih h]

theorem dlookup_setKey_self {k : String} {v : PyVal} {d : List (String × PyVal)}
    (h : keyMem k d = true) : dlookup k (setKey k v d) = some v := by
  induction d with
  | nil => simp [keyMem] at h
  | cons p t ih =>
    by_cases hp : p.1 = k
    · simp [setKey, dlookup, hp]
    · simp only [keyMem, if_neg hp] at h
      simp [setKey, dlookup, hp, ih h]

theorem dlookup_setKey_ne {k' k : String} {v : PyVal} {d : List (String × PyVal)}
    (h : k' ≠ k) : dlookup k' (setKey k v d) = dlookup k' d := by
  induction d with
  | nil => rfl
  | cons p t ih =>
    have hkk : ¬ k = k' := fun hh => h hh.symm
    by_cases hp : p.1 = k
    · simp [setKey, dlookup, hp, hkk, ih]
    · by_cases hq : p.1 = k' <;> simp [setKey, dlookup, hp, hq, h, ih]

theorem keysOf_setKey (k : String) (v : PyVal) (d : List (String × PyVal)) :
    keysOf (setKey k v d) = keysOf d := by
  induction d with
  | nil => rfl
  | cons p t ih =>
    unfold keysOf at ih ⊢
    by_cases hp : p.1 = k
    · unfold setKey
      rw [if_pos hp]
      simp only [List.map_cons, ih, hp]
    · unfold setKey
      rw [if_neg hp]
      simp only [List.map_cons, ih]

theorem keyMem_setKey (k' k : String) (v : PyVal) (d : List (String × PyVal)) :
    keyMem k' (setKey k v d) = keyMem k' d := by
  by_cases h : k' ∈ keysOf d
  · have h2 : k' ∈ keysOf (setKey k v d) := by rw [keysOf_setKey]; exact h
    rw [(keyMem_iff_mem_keysOf _ _).mpr h, (keyMem_iff_mem_keysOf _ _).mpr h2]
  · have h2 : k' ∉ keysOf (setKey k v d) := by rw [keysOf_setKey]; exact h
    have e1 : keyMem k' (setKey k v d) = false := by
      cases he : keyMem k' (setKey k v d)
      · rfl
      · exact absurd ((keyMem_iff_mem_keysOf _ _).mp he) h2
    have e2 : keyMem k' d = false := by
      cases he : keyMem k' d
      · rfl
      · exact absurd ((keyMem_iff_mem_keysOf _ _).mp he) h
    rw [e1, e2]

theorem setKey_setKey (k : String) (v w : PyVal) (d : List (String × PyVal)) :
    setKey k w (setKey k v d) = setKey k w d := by
  induction d with
  | nil => rfl
  | cons p t ih =>
    by_cases hp : p.1 = k <;> simp [setKey, hp, ih]

theorem setKey_append (k : String) (v : PyVal) (d₁ d₂ : List (String × PyVal)) :
    setKey k v (d₁ ++ d₂) = setKey k v d₁ ++ setKey k v d₂ := by
  induction d₁ with
  | nil => rfl
  | cons p t ih =>
    by_cases hp : p.1 = k <;> simp [setKey, hp, ih]

theorem keyMem_append (k : String) (d₁ d₂ : List (String × PyVal)) :
    keyMem k (d₁ ++ d₂) = (keyMem k d₁ || keyMem k d₂) := by
  induction d₁ with
  | nil => rfl
  | cons p t ih =>
    by_cases hp : p.1 = k <;> simp [keyMem, hp, ih]

theorem dlookup_append (k : String) (d₁ d₂ : List (String × PyVal)) :
    dlookup k (d₁ ++ d₂) =
      match dlookup k d₁ with
      | some v => some v
      | Option.none => dlookup k d₂ := by
  induction d₁ with
  | nil => rfl
  | cons p t ih =>
    by_cases hp : p.1 = k <;> simp [dlookup, hp, ih]

theorem dictUpdate_of_not_keyMem {k : String} {d : List (String × PyVal)} (v : PyVal)
    (h : keyMem k d = false) : dictUpdate d k v = d ++ [(k, v)] := by
  unfold dictUpdate
  rw [if_neg (by simp [h])]

theorem dlookup_dictUpdate_self (k : String) (v : PyVal) (d : List (String × PyVal)) :
    dlookup k (dictUpdate d k v) = some v := by
  by_cases h : keyMem k d = true
  · unfold dictUpdate
    rw [if_pos h]
    exact dlookup_setKey_self h
  · have h' := keyMem_false_of_ne_true h
    rw [dictUpdate_of_not_keyMem v h', dlookup_append, (keyMem_eq_false_iff k d).mp h']
    simp [dlookup]

theorem dlookup_dictUpdate_ne {k' k : String} (v : PyVal) (d : List (String × PyVal))
    (h : k' ≠ k) : dlookup k' (dictUpdate d k v) = dlookup k' d := by
  by_cases hm : keyMem k d = true
  · unfold dictUpdate
    rw [if_pos hm]
    exact dlookup_setKey_ne h
  · have h' := keyMem_false_of_ne_true hm
    rw [dictUpdate_of_not_keyMem v h', dlookup_append]
    have h0 : dlookup k' [(k, v)] = Option.none := by
      have hkk : ¬ k = k' := fun hh => h hh.symm
      simp [dlookup, hkk]
    rw [h0]
    cases dlookup k' d <;> rfl

theorem dictUpdate_dictUpdate_self (k : String) (v w : PyVal) (d : List (String × PyVal)) :
    dictUpdate (dictUpdate d k v) k w = dictUpdate d k w := by
  by_cases h : keyMem k d = true
  · have h1 : dictUpdate d k v = setKey k v d := by unfold dictUpdate; rw [if_pos h]
    have h2 : dictUpdate d k w = setKey k w d := by unfold dictUpdate; rw [if_pos h]
    rw [h1, h2]
    have h3 : keyMem k (setKey k v d) = true := by rw [keyMem_setKey]; exact h
    unfold dictUpdate
    rw [if_pos h3, setKey_setKey]
  · have h' := keyMem_false_of_ne_true h
    rw [dictUpdate_of_not_keyMem v h', dictUpdate_of_not_keyMem w h']
    have hm2 : keyMem k (d ++ [(k, v)]) = true := by
      rw [keyMem_append, h']
      simp [keyMem]
    unfold dictUpdate
    rw [if_pos hm2, setKey_append, setKey_of_not_keyMem h']
    simp [setKey]

theorem UniqKeys_dictUpdate {d : List (String × PyVal)} (k : String) (v : PyVal)
    (h : UniqKeys d) : UniqKeys (dictUpdate d k v) := by
  by_cases hm : keyMem k d = true
  · unfold dictUpdate
    rw [if_pos hm]
    unfold UniqKeys
    rw [keysOf_setKey]
    exact h
  · have h' := keyMem_false_of_ne_true hm
    rw [dictUpdate_of_not_keyMem v h']
    unfold UniqKeys at h ⊢
    have hk : k ∉ keysOf d := fun hmem => by
      rw [← keyMem_iff_mem_keysOf] at hmem
      rw [hmem] at h'
      cases h'
    have hkeys : keysOf (d ++ [(k, v)]) = keysOf d ++ [k] := by simp [keysOf]
    rw [hkeys]
    simp [List.nodup_append, h, hk]

theorem dictUpdate_self_of_dlookup {k : String} {v : PyVal} {d : List (String × PyVal)}
    (hu : UniqKeys d) (h : dlookup k d = some v) : dictUpdate d k v = d := by
  have hm : keyMem k d = true := by
    by_contra hc
    rw [(keyMem_eq_false_iff k d).mp (keyMem_false_of_ne_true hc)] at h
    cases h
  unfold dictUpdate
  rw [if_pos hm]
  clear hm
  induction d with
  | nil => cases h
  | cons p t ih =>
    unfold UniqKeys keysOf at hu
    simp only [List.map_cons, List.nodup_cons] at hu
    by_cases hp : p.1 = k
    · simp only [dlookup, if_pos hp] at h
      have hkt : keyMem k t = false := by
        by_contra hc
        have h2 : keyMem k t = true := by revert hc; cases keyMem k t <;> simp
        rw [keyMem_iff_mem_keysOf] at h2
        rw [hp] at hu
        exact hu.1 (by simpa [keysOf] using h2)
      injection h with h2
      simp only [setKey, if_pos hp, setKey_of_not_keyMem hkt]
      rw [← h2]
    · simp only [dlookup, if_neg hp] at h
      simp only [setKey, if_neg hp]
      rw [ih (by unfold UniqKeys keysOf; exact hu.2) h]

theorem splitChar_eq_single (sep : Char) (cs : List Char) (h : sep ∉ cs) :
    splitChar sep cs = [cs] := by
  induction cs with
  | nil => rfl
  | cons c t ih =>
    have hc : ¬ c = sep := fun he => h (he ▸ List.mem_cons_self c t)
    have ht : sep ∉ t := fun hm => h (List.mem_cons_of_mem c hm)
    unfold splitChar
    rw [if_neg (by simp [hc]), ih ht]
    rfl

theorem splitChar_ne_nil (sep : Char) (cs : List Char) : splitChar sep cs ≠ [] := by
  induction cs with
  | nil => simp [splitChar]
  | cons c t ih =>
    unfold splitChar
    by_cases hc : (c == sep) = true
    · rw [if_pos hc]; simp
    · rw [if_neg hc]
      unfold consHead
      match hx : splitChar sep t with
      | [] => exact absurd hx ih
      | l :: ls => simp

theorem splitChar_headD (sep : Char) (cs : List Char) :
    (splitChar sep cs).headD [] = cs.takeWhile (fun c => !(c == sep)) := by
  induction cs with
  | nil => rfl
  | cons c t ih =>
    unfold splitChar
    by_cases hc : (c == sep) = true
    · rw [if_pos hc]
      simp [List.takeWhile, hc]
    · rw [if_neg hc]
      have hb : (c == sep) = false := by revert hc; cases c == sep <;> simp
      match hx : splitChar sep t with
      | [] => exact absurd hx (splitChar_ne_nil sep t)
      | l :: ls =>
        rw [hx] at ih
        simp only [List.headD] at ih
        simp [consHead, List.takeWhile, hb, ih]

theorem splitChar_append_sep (sep : Char) (l t : List Char) (h : sep ∉ l) :
    splitChar sep (l ++ sep :: t) = l :: splitChar sep t := by
  induction l with
  | nil =>
    show splitChar sep (sep :: t) = [] :: splitChar sep t
    rw [splitChar]
    simp
  | cons c cs ih =>
    have hc : ¬ c = sep := fun he => h (he ▸ List.mem_cons_self c cs)
    have hcs : sep ∉ cs := fun hm => h (List.mem_cons_of_mem c hm)
    show splitChar sep (c :: (cs ++ sep :: t)) = (c :: cs) :: splitChar sep t
    rw [splitChar, if_neg (by simp [hc]), ih hcs]
    rfl

theorem takeWhile_no_colon (cs : List Char) (h : ':' ∉ cs) :
    cs.takeWhile (fun c => !(c == ':')) = cs := by
  induction cs with
  | nil => rfl
  | cons c t ih =>
    have hc : ¬ c = ':' := fun he => h (he ▸ List.mem_cons_self c t)
    have ht : ':' ∉ t := fun hm => h (List.mem_cons_of_mem c hm)
    simp only [List.takeWhile, show (c == ':') = false by simp [hc]]
    rw [ih ht]
    rfl

theorem untilColon_of_no_colon (s : String) (h : ':' ∉ s.data) : untilColon s = s := by
  unfold untilColon
  rw [takeWhile_no_colon s.data h]

theorem colonIdx1_PN (n : String) :
    colonIdx1 ("Process Name: " ++ n) = " " ++ untilColon n := by
  unfold colonIdx1 pySplitAll
  have h1 : ("Process Name: " ++ n).data = "Process Name".data ++ ':' :: (' ' :: n.data) := rfl
  rw [h1, splitChar_append_sep ':' _ _ (by decide)]
  have h2 : splitChar ':' (' ' :: n.data) = consHead ' ' (splitChar ':' n.data) := rfl
  rw [h2]
  match hx : splitChar ':' n.data with
  | [] => exact absurd hx (splitChar_ne_nil ':' n.data)
  | l :: ls =>
    have hl : l = n.data.takeWhile (fun c => !(c == ':')) := by
      have := splitChar_headD ':' n.data
      rw [hx] at this
      simpa using this
    simp only [consHead, List.map_cons, List.getD, List.getElem?_cons_succ,
      List.getElem?_cons_zero]
    rw [hl]
    rfl

theorem colonIdx1_TS (s : String) :
    colonIdx1 ("Threat Score: " ++ s) = " " ++ untilColon s := by
  unfold colonIdx1 pySplitAll
  have h1 : ("Threat Score: " ++ s).data = "Threat Score".data ++ ':' :: (' ' :: s.data) := rfl
  rw [h1, splitChar_append_sep ':' _ _ (by decide)]
  have h2 : splitChar ':' (' ' :: s.data) = consHead ' ' (splitChar ':' s.data) := rfl
  rw [h2]
  match hx : splitChar ':' s.data with
  | [] => exact absurd hx (splitChar_ne_nil ':' s.data)
  | l :: ls =>
    have hl : l = s.data.takeWhile (fun c => !(c == ':')) := by
      have := splitChar_headD ':' s.data
      rw [hx] at this
      simpa using this
    simp only [consHead, List.map_cons, List.getD, List.getElem?_cons_succ,
      List.getElem?_cons_zero]
    rw [hl]
    rfl

theorem pyStrip_space (s : String) : pyStrip (" " ++ s) = pyStrip s := rfl

theorem trimChars_all_space {cs : List Char} (h : trimChars cs = []) :
    ∀ c ∈ cs, isSpaceChar c = true := by
  intro c hc
  unfold trimChars at h
  have h1 : (cs.dropWhile isSpaceChar).reverse.dropWhile isSpaceChar = [] := by
    have := congrArg List.reverse h
    simpa using this
  have h2 : ∀ x ∈ (cs.dropWhile isSpaceChar).reverse, isSpaceChar x = true := by
    rw [List.dropWhile_eq_nil_iff] at h1
    exact h1
  have h3 : ∀ x ∈ cs.dropWhile isSpaceChar, isSpaceChar x = true := by
    intro x hx
    exact h2 x (by simpa using hx)
  have hsplit : c ∈ cs.takeWhile isSpaceChar ++ cs.dropWhile isSpaceChar := by
    rw [List.takeWhile_append_dropWhile]
    exact hc
  rcases List.mem_append.mp hsplit with h4 | h4
  · exact List.mem_takeWhile_imp h4
  · exact h3 c h4

theorem pyStartsWith_false_of_blank {l : String} (h : pyStrip l = "")
    (lab : String) (c₀ : Char) (rest : List Char)
    (hlab : lab.data = c₀ :: rest) (hc₀ : isSpaceChar c₀ = false) :
    pyStartsWith l lab = false := by
  have hsp : ∀ c ∈ l.data, isSpaceChar c = true := by
    apply trimChars_all_space
    have : (pyStrip l).data = "".data := by rw [h]
    simpa [pyStrip] using this
  unfold pyStartsWith
  rw [hlab]
  cases hld : l.data with
  | nil => rfl
  | cons c cs =>
    have hcsp : isSpaceChar c = true := hsp c (by rw [hld]; exact List.mem_cons_self c cs)
    have hne : ¬ c₀ = c := fun he => by rw [he, hcsp] at hc₀; cases hc₀
    unfold startsWithChars
    simp [hne]

theorem strData_append (a b : String) : (a ++ b).data = a.data ++ b.data := rfl

theorem nlData : "\n".data = ['\n'] := rfl

theorem pySplitLines_joinLines : ∀ (ls : List String), ls ≠ [] →
    (∀ l ∈ ls, '\n' ∉ l.data) → pySplitLines (joinLines ls) = ls
  | [], hne, _ => absurd rfl hne
  | [l], _, h => by
    show pySplitLines l = [l]
    unfold pySplitLines pySplitAll
    rw [splitChar_eq_single '\n' l.data (h l (List.mem_cons_self l []))]
    rfl
  | l :: l2 :: t2, _, h => by
    have hrec := pySplitLines_joinLines (l2 :: t2) (by simp)
      (fun x hx => h x (List.mem_cons_of_mem l hx))
    have hd : (joinLines (l :: l2 :: t2)).data = l.data ++ '\n' :: (joinLines (l2 :: t2)).data := by
      show (l ++ "\n" ++ joinLines (l2 :: t2)).data = _
      simp only [strData_append, nlData]
      simp [List.append_assoc]
    show pySplitLines (joinLines (l :: l2 :: t2)) = l :: l2 :: t2
    unfold pySplitLines pySplitAll
    rw [hd, splitChar_append_sep '\n' _ _ (h l (List.mem_cons_self _ _)), List.map_cons]
    unfold pySplitLines pySplitAll at hrec
    rw [hrec]

theorem pySplitLines_pre_append : ∀ (pre : List String) (content : String), pre ≠ [] →
    (∀ l ∈ pre, '\n' ∉ l.data) →
    pySplitLines (joinLines pre ++ "\n" ++ content) = pre ++ pySplitLines content
  | [], _, hne, _ => absurd rfl hne
  | [l], content, _, h => by
    show pySplitLines (l ++ "\n" ++ content) = l :: pySplitLines content
    unfold pySplitLines pySplitAll
    have hd : (l ++ "\n" ++ content).data = l.data ++ '\n' :: content.data := by
      simp only [strData_append, nlData]
      simp [List.append_assoc]
    rw [hd, splitChar_append_sep '\n' _ _ (h l (List.mem_cons_self l [])), List.map_cons]
  | l :: l2 :: t2, content, _, h => by
    have hrec := pySplitLines_pre_append (l2 :: t2) content (by simp)
      (fun x hx => h x (List.mem_cons_of_mem l hx))
    have hd : (joinLines (l :: l2 :: t2) ++ "\n" ++ content).data =
        l.data ++ '\n' :: (joinLines (l2 :: t2) ++ "\n" ++ content).data := by
      show ((l ++ "\n" ++ joinLines (l2 :: t2)) ++ "\n" ++ content).data = _
      simp only [strData_append, nlData]
      simp [List.append_assoc]
    show pySplitLines (joinLines (l :: l2 :: t2) ++ "\n" ++ content) =
      (l :: l2 :: t2) ++ pySplitLines content
    unfold pySplitLines pySplitAll
    rw [hd, splitChar_append_sep '\n' _ _ (h l (List.mem_cons_self _ _)), List.map_cons]
    unfold pySplitLines pySplitAll at hrec
    rw [hrec]
    exact rfl

theorem stepA_descr (st : ParseState) (d : String) :
    stepAnthropic st ("Description: " ++ d) =
      Except.ok { st with descr := st.descr ++ [pyStrip d] } := rfl

theorem stepA_name (st : ParseState) (n : String) (hc : ':' ∉ n.data) :
    stepAnthropic st ("Process Name: " ++ n) =
      match flushCurrent st with
      | Except.ok a =>
        Except.ok ⟨dictUpdate a (pyStrip n) (PyVal.dict []), some (pyStrip n), []⟩
      | Except.error e => Except.error e := by
  show (match flushCurrent st with
      | Except.ok a =>
        Except.ok (ParseState.mk
          (dictUpdate a (pyStrip (colonIdx1 ("Process Name: " ++ n))) (PyVal.dict []))
          (some (pyStrip (colonIdx1 ("Process Name: " ++ n)))) [])
      | Except.error e => Except.error e) = _
  rw [colonIdx1_PN n, untilColon_of_no_colon n hc, pyStrip_space]

theorem stepA_ts (st : ParseState) (s : String) :
    stepAnthropic st ("Threat Score: " ++ s) =
      match st.current with
      | some p =>
        match setItem st.analysis p "threat_score" (scoreValOf (pyStrip (untilColon s))) with
        | Except.ok a => Except.ok { st with analysis := a }
        | Except.error e => Except.error e
      | Option.none => Except.error PyError.keyError := by
  show (match st.current with
      | some p =>
        match setItem st.analysis p "threat_score"
            (scoreValOf (pyStrip (colonIdx1 ("Threat Score: " ++ s)))) with
        | Except.ok a => Except.ok { st with analysis := a }
        | Except.error e => Except.error e
      | Option.none => Except.error PyError.keyError) = _
  rw [colonIdx1_TS s]
  rfl

theorem stepA_cont (A : List (String × PyVal)) (p : String) (ds : List String) (c : String)
    (h1 : pyStartsWith c "Process Name:" = false)
    (h2 : pyStartsWith c "Description:" = false)
    (h3 : pyStartsWith c "Threat Score:" = false)
    (h4 : pyStrip c ≠ "") (hp : p ≠ "") :
    stepAnthropic ⟨A, some p, ds⟩ c = Except.ok ⟨A, some p, ds ++ [pyStrip c]⟩ := by
  unfold stepAnthropic
  simp only [h1, h2, h3, Bool.false_eq_true, if_false]
  have hb : (pyStrip c == "") = false := by simp [h4]
  have ht : truthyCur (some p) = true := by simp [truthyCur, hp]
  rw [hb, ht]
  simp

theorem stepA_blank (st : ParseState) (l : String) (h : pyStrip l = "") :
    stepAnthropic st l = Except.ok st := by
  have h1 := pyStartsWith_false_of_blank h "Process Name:" 'P' "rocess Name:".data rfl (by decide)
  have h2 := pyStartsWith_false_of_blank h "Description:" 'D' "escription:".data rfl (by decide)
  have h3 := pyStartsWith_false_of_blank h "Threat Score:" 'T' "hreat Score:".data rfl (by decide)
  unfold stepAnthropic
  simp only [h1, h2, h3, Bool.false_eq_true, if_false]
  have hb : (pyStrip l == "") = true := by simp [h]
  rw [hb]
  simp

theorem stepOpenai_eq (st : ParseState) (line : String) :
    stepOpenai st line = stepAnthropic st line := rfl

theorem runLinesO_eq (st : ParseState) (ls : List String) :
    runLinesO st ls = runLinesA st ls := by
  induction ls generalizing st with
  | nil => rfl
  | cons l t ih =>
    rw [show runLinesO st (l :: t) = (match stepOpenai st l with
        | Except.ok st2 => runLinesO st2 t
        | Except.error e => Except.error e) from rfl,
      show runLinesA st (l :: t) = (match stepAnthropic st l with
        | Except.ok st2 => runLinesA st2 t
        | Except.error e => Except.error e) from rfl,
      stepOpenai_eq]
    cases stepAnthropic st l with
    | ok st2 => exact ih st2
    | error e => rfl

theorem parseO_eq (lines : List String) : parseO lines = parseA lines := by
  unfold parseO parseA
  rw [runLinesO_eq]

theorem analyzeO_eq (content : String) :
    analyze_processes_openai content = analyze_processes_anthropic content := by
  unfold analyze_processes_openai analyze_processes_anthropic
  rw [parseO_eq]

theorem runLinesA_append (st : ParseState) (xs ys : List String) :
    runLinesA st (xs ++ ys) =
      match runLinesA st xs with
      | Except.ok st2 => runLinesA st2 ys
      | Except.error e => Except.error e := by
  induction xs generalizing st with
  | nil => rfl
  | cons l t ih =>
    rw [show runLinesA st (l :: t ++ ys) = (match stepAnthropic st l with
        | Except.ok st2 => runLinesA st2 (t ++ ys)
        | Except.error e => Except.error e) from rfl,
      show runLinesA st (l :: t) = (match stepAnthropic st l with
        | Except.ok st2 => runLinesA st2 t
        | Except.error e => Except.error e) from rfl]
    cases stepAnthropic st l with
    | ok st2 => exact ih st2
    | error e => rfl

theorem flushCurrent_open (A : List (String × PyVal)) (p : String) (ds : List String)
    (d : List (String × PyVal)) (hp : p ≠ "") (hA : dlookup p A = some (PyVal.dict d)) :
    flushCurrent ⟨A, some p, ds⟩ =
      Except.ok (dictUpdate A p (PyVal.dict (dictUpdate d "description"
        (PyVal.str (joinSpace ds))))) := by
  have hb : (p == "") = false := by simp [hp]
  simp only [flushCurrent, hb, Bool.false_eq_true, if_false, setItem, hA]

theorem setItem_of_dlookup {A : List (String × PyVal)} {p : String}
    {d : List (String × PyVal)} (field : String) (v : PyVal)
    (hA : dlookup p A = some (PyVal.dict d)) :
    setItem A p field v = Except.ok (dictUpdate A p (PyVal.dict (dictUpdate d field v))) := by
  simp only [setItem, hA]

theorem runBody : ∀ (body : List BodyLine) (A : List (String × PyVal)) (p : String)
    (ds : List String) (d : List (String × PyVal)),
    (∀ bl ∈ body, WFBody bl) → p ≠ "" → dlookup p A = some (PyVal.dict d) → UniqKeys A →
    runLinesA ⟨A, some p, ds⟩ (body.map bodyLineText) =
      Except.ok ⟨dictUpdate A p (PyVal.dict (scoreFieldsFrom d body)), some p,
        ds ++ contribs body⟩
  | [], A, p, ds, d, _, _, hA, hu => by
    show Except.ok (ParseState.mk A (some p) ds) = _
    rw [show scoreFieldsFrom d [] = d from rfl, dictUpdate_self_of_dlookup hu hA]
    simp [contribs]
  | BodyLine.descrLine dl :: t, A, p, ds, d, hwf, hp, hA, hu => by
    have hwft : ∀ bl ∈ t, WFBody bl := fun x hx => hwf x (List.mem_cons_of_mem _ hx)
    rw [show runLinesA ⟨A, some p, ds⟩ ((BodyLine.descrLine dl :: t).map bodyLineText) =
        (match stepAnthropic ⟨A, some p, ds⟩ ("Description: " ++ dl) with
         | Except.ok st2 => runLinesA st2 (t.map bodyLineText)
         | Except.error e => Except.error e) from rfl,
      stepA_descr ⟨A, some p, ds⟩ dl]
    show runLinesA ⟨A, some p, ds ++ [pyStrip dl]⟩ (t.map bodyLineText) = _
    rw [runBody t A p (ds ++ [pyStrip dl]) d hwft hp hA hu]
    show Except.ok (ParseState.mk (dictUpdate A p (PyVal.dict (scoreFieldsFrom d t)))
      (some p) ((ds ++ [pyStrip dl]) ++ contribs t)) = Except.ok (ParseState.mk
      (dictUpdate A p (PyVal.dict (scoreFieldsFrom d t)))
      (some p) (ds ++ (pyStrip dl :: contribs t)))
    rw [List.append_assoc]
    rfl
  | BodyLine.scoreLine s :: t, A, p, ds, d, hwf, hp, hA, hu => by
    obtain ⟨hnl, hcolon⟩ := hwf (BodyLine.scoreLine s) (List.mem_cons_self _ _)
    have hwft : ∀ bl ∈ t, WFBody bl := fun x hx => hwf x (List.mem_cons_of_mem _ hx)
    have hstep : stepAnthropic ⟨A, some p, ds⟩ ("Threat Score: " ++ s) =
        Except.ok ⟨dictUpdate A p (PyVal.dict (dictUpdate d "threat_score"
          (scoreValOf (pyStrip s)))), some p, ds⟩ := by
      have h1 := stepA_ts ⟨A, some p, ds⟩ s
      rw [untilColon_of_no_colon s hcolon] at h1
      rw [h1]
      show (match setItem A p "threat_score" (scoreValOf (pyStrip s)) with
          | Except.ok a => Except.ok (ParseState.mk a (some p) ds)
          | Except.error e => Except.error e) = _
      rw [setItem_of_dlookup "threat_score" (scoreValOf (pyStrip s)) hA]
    rw [show runLinesA ⟨A, some p, ds⟩ ((BodyLine.scoreLine s :: t).map bodyLineText) =
        (match stepAnthropic ⟨A, some p, ds⟩ ("Threat Score: " ++ s) with
         | Except.ok st2 => runLinesA st2 (t.map bodyLineText)
         | Except.error e => Except.error e) from rfl,
      hstep]
    show runLinesA ⟨dictUpdate A p (PyVal.dict (dictUpdate d "threat_score"
      (scoreValOf (pyStrip s)))), some p, ds⟩ (t.map bodyLineText) = _
    rw [runBody t (dictUpdate A p (PyVal.dict (dictUpdate d "threat_score"
        (scoreValOf (pyStrip s))))) p ds (dictUpdate d "threat_score" (scoreValOf (pyStrip s)))
        hwft hp (dlookup_dictUpdate_self p (PyVal.dict (dictUpdate d "threat_score"
          (scoreValOf (pyStrip s)))) A) (UniqKeys_dictUpdate p (PyVal.dict (dictUpdate d
          "threat_score" (scoreValOf (pyStrip s)))) hu),
      dictUpdate_dictUpdate_self]
    rfl
  | BodyLine.contLine c :: t, A, p, ds, d, hwf, hp, hA, hu => by
    obtain ⟨hnl, hblank, hc1, hc2, hc3⟩ := hwf (BodyLine.contLine c) (List.mem_cons_self _ _)
    have hwft : ∀ bl ∈ t, WFBody bl := fun x hx => hwf x (List.mem_cons_of_mem _ hx)
    rw [show runLinesA ⟨A, some p, ds⟩ ((BodyLine.contLine c :: t).map bodyLineText) =
        (match stepAnthropic ⟨A, some p, ds⟩ c with
         | Except.ok st2 => runLinesA st2 (t.map bodyLineText)
         | Except.error e => Except.error e) from rfl,
      stepA_cont A p ds c hc1 hc2 hc3 hblank hp]
    show runLinesA ⟨A, some p, ds ++ [pyStrip c]⟩ (t.map bodyLineText) = _
    rw [runBody t A p (ds ++ [pyStrip c]) d hwft hp hA hu]
    show Except.ok (ParseState.mk (dictUpdate A p (PyVal.dict (scoreFieldsFrom d t)))
      (some p) ((ds ++ [pyStrip c]) ++ contribs t)) = Except.ok (ParseState.mk
      (dictUpdate A p (PyVal.dict (scoreFieldsFrom d t)))
      (some p) (ds ++ (pyStrip c :: contribs t)))
    rw [List.append_assoc]
    rfl


theorem runThenFlush_cons (st : ParseState) (l : String) (ls : List String) :
    runThenFlush st (l :: ls) =
      match stepAnthropic st l with
      | Except.ok st2 => runThenFlush st2 ls
      | Except.error e => Except.error e := by
  unfold runThenFlush
  rw [show runLinesA st (l :: ls) = (match stepAnthropic st l with
      | Except.ok st2 => runLinesA st2 ls
      | Except.error e => Except.error e) from rfl]
  cases stepAnthropic st l <;> rfl

theorem runThenFlush_append (st : ParseState) (xs ys : List String) :
    runThenFlush st (xs ++ ys) =
      match runLinesA st xs with
      | Except.ok st2 => runThenFlush st2 ys
      | Except.error e => Except.error e := by
  unfold runThenFlush
  rw [runLinesA_append]
  cases runLinesA st xs <;> rfl

theorem parseA_runThenFlush (lines : List String) :
    parseA lines = runThenFlush ⟨[], Option.none, []⟩ lines := by
  unfold parseA runThenFlush
  cases runLinesA ⟨[], Option.none, []⟩ lines <;> rfl

theorem tailRun : ∀ (bs : List Block) (A : List (String × PyVal)) (p : String)
    (ds : List String) (d : List (String × PyVal)),
    WFBlocks bs → p ≠ "" → dlookup p A = some (PyVal.dict d) → UniqKeys A →
    runThenFlush ⟨A, some p, ds⟩ (linesOf bs) =
      Except.ok (List.foldl updB
        (dictUpdate A p (PyVal.dict (dictUpdate d "description"
          (PyVal.str (joinSpace ds))))) bs)
  | [], A, p, ds, d, _, hp, hA, _ => by
    show flushCurrent ⟨A, some p, ds⟩ = _
    rw [flushCurrent_open A p ds d hp hA]
    rfl
  | b :: t, A, p, ds, d, hwf, hp, hA, hu => by
    obtain ⟨hbn, hbtrim, hbcolon, hbnl, hbody⟩ := hwf b (List.mem_cons_self b t)
    have hwft : WFBlocks t := fun x hx => hwf x (List.mem_cons_of_mem b hx)
    have hu1 : UniqKeys (dictUpdate A p (PyVal.dict (dictUpdate d "description"
        (PyVal.str (joinSpace ds))))) :=
      UniqKeys_dictUpdate p _ hu
    have hstep : stepAnthropic ⟨A, some p, ds⟩ ("Process Name: " ++ b.name) =
        Except.ok ⟨dictUpdate (dictUpdate A p (PyVal.dict (dictUpdate d "description"
          (PyVal.str (joinSpace ds))))) b.name (PyVal.dict []), some b.name, []⟩ := by
      rw [stepA_name ⟨A, some p, ds⟩ b.name hbcolon, flushCurrent_open A p ds d hp hA, hbtrim]
    rw [show linesOf (b :: t) =
        ("Process Name: " ++ b.name) :: (b.body.map bodyLineText ++ linesOf t) from rfl,
      runThenFlush_cons, hstep]
    show runThenFlush ⟨dictUpdate (dictUpdate A p (PyVal.dict (dictUpdate d "description"
        (PyVal.str (joinSpace ds))))) b.name (PyVal.dict []), some b.name, []⟩
        (b.body.map bodyLineText ++ linesOf t) = _
    rw [runThenFlush_append, runBody b.body
        (dictUpdate (dictUpdate A p (PyVal.dict (dictUpdate d "description"
          (PyVal.str (joinSpace ds))))) b.name (PyVal.dict [])) b.name [] [] hbody hbn
        (dlookup_dictUpdate_self b.name (PyVal.dict []) _)
        (UniqKeys_dictUpdate b.name (PyVal.dict []) hu1)]
    show runThenFlush ⟨dictUpdate (dictUpdate (dictUpdate A p (PyVal.dict (dictUpdate d
        "description" (PyVal.str (joinSpace ds))))) b.name (PyVal.dict [])) b.name
        (PyVal.dict (scoreFieldsFrom [] b.body)), some b.name, contribs b.body⟩
        (linesOf t) = _
    rw [tailRun t (dictUpdate (dictUpdate (dictUpdate A p (PyVal.dict (dictUpdate d
          "description" (PyVal.str (joinSpace ds))))) b.name (PyVal.dict [])) b.name
          (PyVal.dict (scoreFieldsFrom [] b.body))) b.name (contribs b.body)
          (scoreFieldsFrom [] b.body) hwft hbn
        (dlookup_dictUpdate_self b.name (PyVal.dict (scoreFieldsFrom [] b.body)) _)
        (UniqKeys_dictUpdate b.name (PyVal.dict (scoreFieldsFrom [] b.body))
          (UniqKeys_dictUpdate b.name (PyVal.dict []) hu1)),
      dictUpdate_dictUpdate_self, dictUpdate_dictUpdate_self]
    rfl

theorem parseA_blocks : ∀ (bs : List Block), WFBlocks bs →
    parseA (linesOf bs) = Except.ok (List.foldl updB [] bs)
  | [], _ => rfl
  | b :: t, hwf => by
    obtain ⟨hbn, hbtrim, hbcolon, hbnl, hbody⟩ := hwf b (List.mem_cons_self b t)
    have hwft : WFBlocks t := fun x hx => hwf x (List.mem_cons_of_mem b hx)
    have hstep : stepAnthropic ⟨[], Option.none, []⟩ ("Process Name: " ++ b.name) =
        Except.ok ⟨dictUpdate [] b.name (PyVal.dict []), some b.name, []⟩ := by
      rw [stepA_name ⟨[], Option.none, []⟩ b.name hbcolon, hbtrim]
      rfl
    have hu1 : UniqKeys (dictUpdate [] b.name (PyVal.dict [])) :=
      UniqKeys_dictUpdate b.name (PyVal.dict []) (by simp [UniqKeys, keysOf])
    rw [parseA_runThenFlush,
      show linesOf (b :: t) =
        ("Process Name: " ++ b.name) :: (b.body.map bodyLineText ++ linesOf t) from rfl,
      runThenFlush_cons, hstep]
    show runThenFlush ⟨dictUpdate [] b.name (PyVal.dict []), some b.name, []⟩
        (b.body.map bodyLineText ++ linesOf t) = _
    rw [runThenFlush_append, runBody b.body (dictUpdate [] b.name (PyVal.dict [])) b.name [] []
        hbody hbn (dlookup_dictUpdate_self b.name (PyVal.dict []) _) hu1]
    show runThenFlush ⟨dictUpdate (dictUpdate [] b.name (PyVal.dict [])) b.name
        (PyVal.dict (scoreFieldsFrom [] b.body)), some b.name, contribs b.body⟩
        (linesOf t) = _
    rw [tailRun t (dictUpdate (dictUpdate [] b.name (PyVal.dict [])) b.name
          (PyVal.dict (scoreFieldsFrom [] b.body))) b.name (contribs b.body)
          (scoreFieldsFrom [] b.body) hwft hbn
        (dlookup_dictUpdate_self b.name (PyVal.dict (scoreFieldsFrom [] b.body)) _)
        (UniqKeys_dictUpdate b.name (PyVal.dict (scoreFieldsFrom [] b.body)) hu1),
      dictUpdate_dictUpdate_self, dictUpdate_dictUpdate_self]
    rfl

theorem dlookup_foldl_updB_not_mem : ∀ (bs : List Block) (M : List (String × PyVal)) (k : String),
    (∀ b ∈ bs, b.name ≠ k) → dlookup k (List.foldl updB M bs) = dlookup k M
  | [], _, _, _ => rfl
  | b :: t, M, k, h => by
    rw [List.foldl_cons, dlookup_foldl_updB_not_mem t (updB M b) k
      (fun x hx => h x (List.mem_cons_of_mem b hx))]
    exact dlookup_dictUpdate_ne (entryOf b) M (h b (List.mem_cons_self b t)).symm

theorem foldl_updB_map : ∀ (bs : List Block) (M : List (String × PyVal)),
    (bs.map Block.name).Nodup → (∀ b ∈ bs, keyMem b.name M = false) →
    List.foldl updB M bs = M ++ bs.map (fun b => (b.name, entryOf b))
  | [], M, _, _ => by simp
  | b :: t, M, hnd, hdisj => by
    rw [List.foldl_cons]
    have hmem : keyMem b.name M = false := hdisj b (List.mem_cons_self b t)
    have hupd : updB M b = M ++ [(b.name, entryOf b)] := dictUpdate_of_not_keyMem _ hmem
    have hnd' : (t.map Block.name).Nodup := by
      simp only [List.map_cons, List.nodup_cons] at hnd
      exact hnd.2
    have hbn : b.name ∉ t.map Block.name := by
      simp only [List.map_cons, List.nodup_cons] at hnd
      exact hnd.1
    have hdisj' : ∀ x ∈ t, keyMem x.name (M ++ [(b.name, entryOf b)]) = false := by
      intro x hx
      rw [keyMem_append, hdisj x (List.mem_cons_of_mem b hx)]
      have hne : ¬ b.name = x.name := fun he =>
        hbn (by rw [he]; exact List.mem_map_of_mem Block.name hx)
      simp [keyMem, hne]
    rw [hupd, foldl_updB_map t (M ++ [(b.name, entryOf b)]) hnd' hdisj']
    simp

theorem linesOf_append (bs₁ bs₂ : List Block) :
    linesOf (bs₁ ++ bs₂) = linesOf bs₁ ++ linesOf bs₂ := by
  induction bs₁ with
  | nil => rfl
  | cons b t ih => simp [linesOf, ih, List.append_assoc]

theorem linesOf_ne_nil (b : Block) (t : List Block) : linesOf (b :: t) ≠ [] := by
  simp [linesOf, blockLines]

theorem noNl_append (a b : String) (ha : '\n' ∉ a.data) (hb : '\n' ∉ b.data) :
    '\n' ∉ (a ++ b).data := by
  rw [strData_append]
  intro h
  rcases List.mem_append.mp h with h2 | h2
  · exact ha h2
  · exact hb h2

theorem linesOf_noNl : ∀ (bs : List Block), WFBlocks bs → ∀ l ∈ linesOf bs, '\n' ∉ l.data
  | [], _, l, hl => absurd hl (by simp [linesOf])
  | b :: t, hwf, l, hl => by
    obtain ⟨hbn, hbtrim, hbcolon, hbnl, hbody⟩ := hwf b (List.mem_cons_self b t)
    have hwft : WFBlocks t := fun x hx => hwf x (List.mem_cons_of_mem b hx)
    rw [show linesOf (b :: t) = blockLines b ++ linesOf t from rfl] at hl
    rcases List.mem_append.mp hl with h2 | h2
    · unfold blockLines at h2
      rcases List.mem_cons.mp h2 with h3 | h3
      · rw [h3]
        exact noNl_append "Process Name: " b.name (by decide) hbnl
      · obtain ⟨bl, hbl, hbleq⟩ := List.mem_map.mp h3
        have hw := hbody bl hbl
        cases bl with
        | descrLine dd =>
          rw [← hbleq]
          exact noNl_append "Description: " dd (by decide) hw
        | scoreLine ss =>
          rw [← hbleq]
          exact noNl_append "Threat Score: " ss (by decide) hw.1
        | contLine cc =>
          rw [← hbleq]
          exact hw.1
    · exact linesOf_noNl t hwft l h2

theorem analyzeA_blocks (bs : List Block) (hwf : WFBlocks bs) (hne : bs ≠ []) :
    analyze_processes_anthropic (payloadOf bs) = PyVal.dict (List.foldl updB [] bs) := by
  have hln : linesOf bs ≠ [] := by
    cases bs with
    | nil => exact absurd rfl hne
    | cons b t => exact linesOf_ne_nil b t
  unfold analyze_processes_anthropic payloadOf
  rw [pySplitLines_joinLines (linesOf bs) hln (linesOf_noNl bs hwf), parseA_blocks bs hwf]

theorem analyzeO_blocks (bs : List Block) (hwf : WFBlocks bs) (hne : bs ≠ []) :
    analyze_processes_openai (payloadOf bs) = PyVal.dict (List.foldl updB [] bs) := by
  rw [analyzeO_eq, analyzeA_blocks bs hwf hne]

theorem boolFalse {b : Bool} (h : ¬ b = true) : b = false := by
  cases b
  · rfl
  · exact absurd rfl h

theorem stepA_PN_none (A : List (String × PyVal)) (ds : List String) (l : String)
    (hPN : pyStartsWith l "Process Name:" = true) :
    stepAnthropic ⟨A, Option.none, ds⟩ l =
      Except.ok ⟨dictUpdate A (pyStrip (colonIdx1 l)) (PyVal.dict []),
        some (pyStrip (colonIdx1 l)), []⟩ := by
  unfold stepAnthropic
  simp only [hPN, eq_self_iff_true, if_true]
  rfl

theorem stepA_descr_any (st : ParseState) (l : String)
    (hPN : pyStartsWith l "Process Name:" = false)
    (hD : pyStartsWith l "Description:" = true) :
    stepAnthropic st l =
      Except.ok { st with descr := st.descr ++ [pyStrip (afterFirstColon l)] } := by
  unfold stepAnthropic
  simp only [hPN, Bool.false_eq_true, if_false, hD, eq_self_iff_true, if_true]

theorem stepA_TS_none (A : List (String × PyVal)) (ds : List String) (l : String)
    (hPN : pyStartsWith l "Process Name:" = false)
    (hD : pyStartsWith l "Description:" = false)
    (hTS : pyStartsWith l "Threat Score:" = true) :
    stepAnthropic ⟨A, Option.none, ds⟩ l = Except.error PyError.keyError := by
  unfold stepAnthropic
  simp only [hPN, hD, Bool.false_eq_true, if_false, hTS, eq_self_iff_true, if_true]

theorem stepA_other_none (A : List (String × PyVal)) (ds : List String) (l : String)
    (hPN : pyStartsWith l "Process Name:" = false)
    (hD : pyStartsWith l "Description:" = false)
    (hTS : pyStartsWith l "Threat Score:" = false) :
    stepAnthropic ⟨A, Option.none, ds⟩ l = Except.ok ⟨A, Option.none, ds⟩ := by
  unfold stepAnthropic
  simp only [hPN, hD, hTS, Bool.false_eq_true, if_false]
  have hc : (!(pyStrip l == "") && truthyCur Option.none) = false := by
    simp [truthyCur]
  simp only [hc, Bool.false_eq_true, if_false]

theorem descrIrrel : ∀ (lines : List String) (A : List (String × PyVal))
    (ds₁ ds₂ : List String),
    runThenFlush ⟨A, Option.none, ds₁⟩ lines = runThenFlush ⟨A, Option.none, ds₂⟩ lines
  | [], _, _, _ => rfl
  | l :: ls, A, ds₁, ds₂ => by
    rw [runThenFlush_cons, runThenFlush_cons]
    by_cases hPN : pyStartsWith l "Process Name:" = true
    · rw [stepA_PN_none A ds₁ l hPN, stepA_PN_none A ds₂ l hPN]
    · have hPN' := boolFalse hPN
      by_cases hD : pyStartsWith l "Description:" = true
      · rw [stepA_descr_any ⟨A, Option.none, ds₁⟩ l hPN' hD,
          stepA_descr_any ⟨A, Option.none, ds₂⟩ l hPN' hD]
        show runThenFlush ⟨A, Option.none, ds₁ ++ [pyStrip (afterFirstColon l)]⟩ ls =
          runThenFlush ⟨A, Option.none, ds₂ ++ [pyStrip (afterFirstColon l)]⟩ ls
        exact descrIrrel ls A _ _
      · have hD' := boolFalse hD
        by_cases hTS : pyStartsWith l "Threat Score:" = true
        · rw [stepA_TS_none A ds₁ l hPN' hD' hTS, stepA_TS_none A ds₂ l hPN' hD' hTS]
        · have hTS' := boolFalse hTS
          rw [stepA_other_none A ds₁ l hPN' hD' hTS', stepA_other_none A ds₂ l hPN' hD' hTS']
          show runThenFlush ⟨A, Option.none, ds₁⟩ ls = runThenFlush ⟨A, Option.none, ds₂⟩ ls
          exact descrIrrel ls A _ _

theorem noPN_result : ∀ (lines : List String) (ds : List String),
    (∀ l ∈ lines, pyStartsWith l "Process Name:" = false) →
    (runThenFlush ⟨[], Option.none, ds⟩ lines = Except.ok [] ∨
      ∃ e, runThenFlush ⟨[], Option.none, ds⟩ lines = Except.error e)
  | [], _, _ => Or.inl rfl
  | l :: ls, ds, h => by
    have hPN := h l (List.mem_cons_self l ls)
    have h' : ∀ x ∈ ls, pyStartsWith x "Process Name:" = false :=
      fun x hx => h x (List.mem_cons_of_mem l hx)
    rw [runThenFlush_cons]
    by_cases hD : pyStartsWith l "Description:" = true
    · rw [stepA_descr_any ⟨[], Option.none, ds⟩ l hPN hD]
      show runThenFlush ⟨[], Option.none, ds ++ [pyStrip (afterFirstColon l)]⟩ ls = _ ∨ _
      exact noPN_result ls _ h'
    · have hD' := boolFalse hD
      by_cases hTS : pyStartsWith l "Threat Score:" = true
      · rw [stepA_TS_none [] ds l hPN hD' hTS]
        exact Or.inr ⟨PyError.keyError, rfl⟩
      · have hTS' := boolFalse hTS
        rw [stepA_other_none [] ds l hPN hD' hTS']
        show runThenFlush ⟨[], Option.none, ds⟩ ls = _ ∨ _
        exact noPN_result ls _ h'

theorem preNoPNTS : ∀ (pre : List String) (ds : List String) (rest : List String),
    (∀ l ∈ pre, pyStartsWith l "Process Name:" = false ∧
      pyStartsWith l "Threat Score:" = false) →
    runThenFlush ⟨[], Option.none, ds⟩ (pre ++ rest) =
      runThenFlush ⟨[], Option.none, ds⟩ rest
  | [], _, _, _ => rfl
  | l :: pre', ds, rest, h => by
    obtain ⟨hPN, hTS⟩ := h l (List.mem_cons_self l pre')
    have h' : ∀ x ∈ pre', pyStartsWith x "Process Name:" = false ∧
        pyStartsWith x "Threat Score:" = false :=
      fun x hx => h x (List.mem_cons_of_mem l hx)
    rw [show (l :: pre') ++ rest = l :: (pre' ++ rest) from rfl, runThenFlush_cons]
    by_cases hD : pyStartsWith l "Description:" = true
    · rw [stepA_descr_any ⟨[], Option.none, ds⟩ l hPN hD]
      show runThenFlush ⟨[], Option.none, ds ++ [pyStrip (afterFirstColon l)]⟩ (pre' ++ rest) = _
      rw [preNoPNTS pre' _ rest h']
      exact descrIrrel rest [] _ _
    · have hD' := boolFalse hD
      rw [stepA_other_none [] ds l hPN hD' hTS]
      show runThenFlush ⟨[], Option.none, ds⟩ (pre' ++ rest) = _
      exact preNoPNTS pre' ds rest h'

theorem dlookup_mem : ∀ {k : String} {v : PyVal} {a : List (String × PyVal)},
    dlookup k a = some v → (k, v) ∈ a
  | k, v, [], h => by cases h
  | k, v, q :: t, h => by
    by_cases hq : q.1 = k
    · simp only [dlookup, if_pos hq] at h
      injection h with h2
      rw [← hq, ← h2]
      exact List.mem_cons_self q t
  -- the head pair is exactly (k, v) up to eta in this case
    · simp only [dlookup, if_neg hq] at h
      exact List.mem_cons_of_mem q (dlookup_mem h)

theorem wfEntry_paOf (a : List (String × PyVal)) (k : String)
    (hwf : WFAnalysis (PyVal.dict a) = true) : WFEntry (paOf (PyVal.dict a) k) = true := by
  cases hl : dlookup k a with
  | none =>
    show WFEntry (match dlookup k a with | some pa => pa | Option.none => PyVal.dict []) = true
    rw [hl]
    rfl
  | some v =>
    show WFEntry (match dlookup k a with | some pa => pa | Option.none => PyVal.dict []) = true
    rw [hl]
    unfold WFAnalysis at hwf
    exact List.all_eq_true.mp hwf (k, v) (dlookup_mem hl)

theorem wfEntry_dict {pa : PyVal} (h : WFEntry pa = true) :
    ∃ e, pa = PyVal.dict e := by
  cases pa with
  | dict e => exact ⟨e, rfl⟩
  | null => cases h
  | bool b => cases h
  | num q => cases h
  | str s => cases h
  | list l => cases h

theorem wf_rawDescription {a : List (String × PyVal)} (k : String)
    (hwf : WFAnalysis (PyVal.dict a) = true) :
    ∃ s, rawDescription (PyVal.dict a) k = PyVal.str s := by
  have hpa := wfEntry_paOf a k hwf
  obtain ⟨e, he⟩ := wfEntry_dict hpa
  rw [he] at hpa
  unfold WFEntry at hpa
  simp only [Bool.and_eq_true] at hpa
  obtain ⟨h1, h2⟩ := hpa
  unfold rawDescription
  rw [he]
  show ∃ s, (dlookup "description" e).getD (PyVal.str "No analysis available") = PyVal.str s
  cases hd : dlookup "description" e with
  | none => exact ⟨"No analysis available", rfl⟩
  | some v =>
    rw [hd] at h1
    cases v with
    | str s => exact ⟨s, rfl⟩
    | null => simp at h1
    | bool b => simp at h1
    | num q => simp at h1
    | list l => simp at h1
    | dict d2 => simp at h1

theorem wf_rawThreatScore {a : List (String × PyVal)} (k : String)
    (hwf : WFAnalysis (PyVal.dict a) = true) :
    (∃ s, rawThreatScore (PyVal.dict a) k = PyVal.str s) ∨
    (∃ q, rawThreatScore (PyVal.dict a) k = PyVal.num q) ∨
    (∃ b, rawThreatScore (PyVal.dict a) k = PyVal.bool b) := by
  have hpa := wfEntry_paOf a k hwf
  obtain ⟨e, he⟩ := wfEntry_dict hpa
  rw [he] at hpa
  unfold WFEntry at hpa
  simp only [Bool.and_eq_true] at hpa
  obtain ⟨h1, h2⟩ := hpa
  unfold rawThreatScore
  rw [he]
  show (∃ s, (dlookup "threat_score" e).getD (PyVal.str "N/A") = PyVal.str s) ∨
    (∃ q, (dlookup "threat_score" e).getD (PyVal.str "N/A") = PyVal.num q) ∨
    (∃ b, (dlookup "threat_score" e).getD (PyVal.str "N/A") = PyVal.bool b)
  cases hd : dlookup "threat_score" e with
  | none => exact Or.inl ⟨"N/A", rfl⟩
  | some v =>
    rw [hd] at h2
    cases v with
    | str s => exact Or.inl ⟨s, rfl⟩
    | num q => exact Or.inr (Or.inl ⟨q, rfl⟩)
    | bool b => exact Or.inr (Or.inr ⟨b, rfl⟩)
    | null => simp at h2
    | list l => simp at h2
    | dict d2 => simp at h2

theorem scoreTriple_no_typeError {ts : PyVal}
    (h : (∃ s, ts = PyVal.str s) ∨ (∃ q, ts = PyVal.num q) ∨ (∃ b, ts = PyVal.bool b)) :
    ∃ tr, scoreTriple ts = Except.ok tr := by
  rcases h with ⟨s, hs⟩ | ⟨q, hq⟩ | ⟨b, hb⟩
  · rw [hs]
    show ∃ tr, (match pyFloat (PyVal.str s) with
      | Except.ok q => Except.ok (q, some q, bucketClass q)
      | Except.error PyError.valueError => Except.ok ((-1 : ℚ), Option.none, "threat-low")
      | Except.error e => Except.error e) = Except.ok tr
    show ∃ tr, (match (match parseFloat (pyStrip s) with
        | some q => Except.ok q
        | Option.none => Except.error PyError.valueError) with
      | Except.ok q => Except.ok (q, some q, bucketClass q)
      | Except.error PyError.valueError => Except.ok ((-1 : ℚ), Option.none, "threat-low")
      | Except.error e => Except.error e) = Except.ok tr
    cases hp : parseFloat (pyStrip s) with
    | none => exact ⟨((-1 : ℚ), Option.none, "threat-low"), rfl⟩
    | some q => exact ⟨(q, some q, bucketClass q), rfl⟩
  · rw [hq]
    exact ⟨(q, some q, bucketClass q), rfl⟩
  · rw [hb]
    exact ⟨(if b then 1 else 0, some (if b then 1 else 0),
      bucketClass (if b then 1 else 0)), rfl⟩

theorem renderSection_wf (a : List (String × PyVal)) (p : ProcessRecord)
    (hwf : WFAnalysis (PyVal.dict a) = true) :
    renderSection (PyVal.dict a) p = Except.ok (sectionOf (PyVal.dict a) p) := by
  obtain ⟨e, he⟩ := wfEntry_dict (wfEntry_paOf a p.name hwf)
  obtain ⟨sdesc, hdesc⟩ := wf_rawDescription p.name hwf
  obtain ⟨tr, htr⟩ := scoreTriple_no_typeError (wf_rawThreatScore p.name hwf)
  have hdget : pyGet (PyVal.dict e) "description" (PyVal.str "No analysis available") =
      Except.ok (rawDescription (PyVal.dict a) p.name) := by
    unfold rawDescription
    rw [he]
    rfl
  have htget : pyGet (PyVal.dict e) "threat_score" (PyVal.str "N/A") =
      Except.ok (rawThreatScore (PyVal.dict a) p.name) := by
    unfold rawThreatScore
    rw [he]
    rfl
  have hshown : pyShownDescription (rawDescription (PyVal.dict a) p.name) =
      Except.ok (pyStrip (pyReplaceOnceEmpty "Typical function:" sdesc)) := by
    rw [hdesc]
    rfl
  have hpget : pyGet (PyVal.dict a) p.name (PyVal.dict []) =
      Except.ok (paOf (PyVal.dict a) p.name) := by
    unfold pyGet paOf entryAt
    dsimp only
    cases dlookup p.name a <;> rfl
  unfold renderSection
  rw [hpget, he]
  dsimp only
  rw [hdget]
  dsimp only
  rw [htget]
  dsimp only
  rw [htr]
  dsimp only
  rw [hshown]
  dsimp only
  unfold sectionOf
  rw [htr, hdesc]

theorem generate_report_wf : ∀ (ps : List ProcessRecord) (a : List (String × PyVal)),
    WFAnalysis (PyVal.dict a) = true →
    generate_report ps (PyVal.dict a) = Except.ok (ps.map (sectionOf (PyVal.dict a)))
  | [], _, _ => rfl
  | p :: ps, a, hwf => by
    show (match renderSection (PyVal.dict a) p with
      | Except.ok sec =>
        match renderAll (PyVal.dict a) ps with
        | Except.ok secs => Except.ok (sec :: secs)
        | Except.error e => Except.error e
      | Except.error e => Except.error e) = _
    rw [renderSection_wf a p hwf]
    dsimp only
    rw [show renderAll (PyVal.dict a) ps = generate_report ps (PyVal.dict a) from rfl,
      generate_report_wf ps a hwf]
    rfl

theorem paOf_eq_getD (a : List (String × PyVal)) (k : String) :
    paOf (PyVal.dict a) k = (dlookup k a).getD (PyVal.dict []) := by
  unfold paOf entryAt
  dsimp only
  cases dlookup k a <;> rfl

theorem rawThreatScore_of_paOf {analysis : PyVal} {k : String} {e : List (String × PyVal)}
    (h : paOf analysis k = PyVal.dict e) :
    rawThreatScore analysis k = (dlookup "threat_score" e).getD (PyVal.str "N/A") := by
  unfold rawThreatScore
  rw [h]

theorem rawDescription_of_paOf {analysis : PyVal} {k : String} {e : List (String × PyVal)}
    (h : paOf analysis k = PyVal.dict e) :
    rawDescription analysis k = (dlookup "description" e).getD
      (PyVal.str "No analysis available") := by
  unfold rawDescription
  rw [h]

theorem renderSection_score_char (analysis : PyVal) (p : ProcessRecord) (sec : ReportSection)
    (h : renderSection analysis p = Except.ok sec) :
    (match pyFloat (rawThreatScore analysis p.name) with
     | Except.ok q => sec.threat_score_num = q ∧ sec.threat_score_display = some q ∧
         sec.threat_class = bucketClass q
     | Except.error er => er = PyError.valueError ∧ sec.threat_score_num = -1 ∧
         sec.threat_score_display = Option.none ∧ sec.threat_class = "threat-low") := by
  unfold renderSection at h
  split at h
  · cases h
  next pa heq =>
    split at h
    · cases h
    next description heq2 =>
      split at h
      · cases h
      next threat_score heq3 =>
        split at h
        · cases h
        next triple heq4 =>
          have hsec : sec.threat_score_num = triple.1 ∧ sec.threat_score_display = triple.2.1 ∧
              sec.threat_class = triple.2.2 := by
            split at h
            all_goals split at h
            all_goals try cases h
            all_goals exact ⟨rfl, rfl, rfl⟩
          obtain ⟨hs1, hs2, hs3⟩ := hsec
          have ha : ∃ a, analysis = PyVal.dict a := by
            cases analysis with
            | dict a => exact ⟨a, rfl⟩
            | null => cases heq
            | bool b => cases heq
            | num q => cases heq
            | str s => cases heq
            | list l => cases heq
          obtain ⟨a, ha⟩ := ha
          subst ha
          have hpa : paOf (PyVal.dict a) p.name = pa := by
            rw [paOf_eq_getD]
            have heq' : Except.ok ((dlookup p.name a).getD (PyVal.dict [])) =
                Except.ok pa := heq
            injection heq'
          have he : ∃ e, pa = PyVal.dict e := by
            cases pa with
            | dict e => exact ⟨e, rfl⟩
            | null => cases heq3
            | bool b => cases heq3
            | num q => cases heq3
            | str s => cases heq3
            | list l => cases heq3
          obtain ⟨e, he⟩ := he
          subst he
          have hts : rawThreatScore (PyVal.dict a) p.name = threat_score := by
            rw [rawThreatScore_of_paOf hpa]
            have heq3' : Except.ok ((dlookup "threat_score" e).getD (PyVal.str "N/A")) =
                Except.ok threat_score := heq3
            injection heq3'
          rw [hts]
          unfold scoreTriple at heq4
          split at heq4
          next q hf =>
            rw [hf]
            dsimp only
            injection heq4 with h7
            rw [hs1, hs2, hs3, ← h7]
            exact ⟨rfl, rfl, rfl⟩
          next hf =>
            rw [hf]
            dsimp only
            injection heq4 with h7
            rw [hs1, hs2, hs3, ← h7]
            exact ⟨rfl, rfl, rfl, rfl⟩
          next er hf hne =>
            cases heq4

theorem dlookup_map_blocks : ∀ (bs : List Block) (b : Block),
    (bs.map Block.name).Nodup → b ∈ bs →
    dlookup b.name (bs.map fun x => (x.name, entryOf x)) = some (entryOf b)
  | [], b, _, hb => absurd hb (List.not_mem_nil b)
  | c :: t, b, hnd, hb => by
    simp only [List.map_cons, List.nodup_cons] at hnd
    rcases List.mem_cons.mp hb with hbc | hbt
    · subst hbc
      show (if b.name = b.name then some (entryOf b)
        else dlookup b.name (t.map fun x => (x.name, entryOf x))) = some (entryOf b)
      rw [if_pos rfl]
    · have hne : ¬ c.name = b.name := fun he =>
        hnd.1 (he ▸ List.mem_map_of_mem Block.name hbt)
      show (if c.name = b.name then some (entryOf c)
        else dlookup b.name (t.map fun x => (x.name, entryOf x))) = some (entryOf b)
      rw [if_neg hne]
      exact dlookup_map_blocks t b hnd.2 hbt

theorem keysOf_map_blocks (bs : List Block) :
    keysOf (bs.map fun b => (b.name, entryOf b)) = bs.map Block.name := by
  show (bs.map fun b => (b.name, entryOf b)).map Prod.fst = bs.map Block.name
  rw [List.map_map]
  rfl

theorem descrOf_of_dlookup_entryOf {a : List (String × PyVal)} {k : String} {b : Block}
    (h : dlookup k a = some (entryOf b)) :
    descrOf (PyVal.dict a) k = some (joinSpace (contribs b.body)) := by
  unfold descrOf entryAt
  dsimp only
  rw [h, show entryOf b = PyVal.dict (dictUpdate (scoreFieldsFrom [] b.body) "description"
    (PyVal.str (joinSpace (contribs b.body)))) from rfl]
  dsimp only
  rw [dlookup_dictUpdate_self]

theorem rawDescription_of_descrOf_some {a : List (String × PyVal)} {k : String} {d : String}
    (h : descrOf (PyVal.dict a) k = some d) :
    rawDescription (PyVal.dict a) k = PyVal.str d := by
  unfold descrOf entryAt at h
  dsimp only at h
  unfold rawDescription
  rw [paOf_eq_getD]
  cases hl : dlookup k a with
  | none =>
    rw [hl] at h
    cases h
  | some v =>
    rw [hl] at h
    cases v with
    | dict e =>
      show (dlookup "description" e).getD (PyVal.str "No analysis available") = PyVal.str d
      dsimp only at h
      cases hd : dlookup "description" e with
      | none =>
        rw [hd] at h
        cases h
      | some w =>
        rw [hd] at h
        cases w with
        | str s =>
          injection h with h2
          rw [← h2]
          rfl
        | null => cases h
        | bool b => cases h
        | num q => cases h
        | dict e2 => cases h
        | list l => cases h
    | null => cases h
    | bool b => cases h
    | num q => cases h
    | str s => cases h
    | list l => cases h

theorem rawDescription_of_descrOf_none {a : List (String × PyVal)} {k : String}
    (hwf : WFAnalysis (PyVal.dict a) = true)
    (h : descrOf (PyVal.dict a) k = Option.none) :
    rawDescription (PyVal.dict a) k = PyVal.str "No analysis available" := by
  unfold descrOf entryAt at h
  dsimp only at h
  unfold WFAnalysis at hwf
  unfold rawDescription
  rw [paOf_eq_getD]
  cases hl : dlookup k a with
  | none => rfl
  | some v =>
    have hwfe : WFEntry v = true := List.all_eq_true.mp hwf (k, v) (dlookup_mem hl)
    obtain ⟨e, he⟩ := wfEntry_dict hwfe
    subst he
    rw [hl] at h
    unfold WFEntry at hwfe
    simp only [Bool.and_eq_true] at hwfe
    obtain ⟨h1, h2⟩ := hwfe
    show (dlookup "description" e).getD (PyVal.str "No analysis available") =
      PyVal.str "No analysis available"
    dsimp only at h
    cases hd : dlookup "description" e with
    | none => rfl
    | some w =>
      rw [hd] at h
      rw [hd] at h1
      cases w with
      | str s => cases h
      | null => cases h1
      | bool b => cases h1
      | num q => cases h1
      | dict e2 => cases h1
      | list l => cases h1

theorem sectionOf_name (analysis : PyVal) (p : ProcessRecord) :
    (sectionOf analysis p).name = p.name := rfl

theorem sectionOf_shown (analysis : PyVal) (p : ProcessRecord) (s : String)
    (h : rawDescription analysis p.name = PyVal.str s) :
    (sectionOf analysis p).descriptionShown =
      pyStrip (pyReplaceOnceEmpty "Typical function:" s) ∧
    (sectionOf analysis p).searchLink =
      (if s == "No analysis available" then some (searchURL p.name) else Option.none) := by
  unfold sectionOf
  dsimp only
  rw [h]
  constructor
  · rfl
  · show (if pyValEqStr (PyVal.str s) "No analysis available" then some (searchURL p.name)
      else Option.none) = _
    rfl

theorem stepOll_ts (A : List (String × PyVal)) (p : String) (e : List (String × PyVal))
    (s : String) (hp : p ≠ "") (hA : dlookup p A = some (PyVal.dict e)) :
    stepOllama ⟨A, some p⟩ ("Threat Score:" ++ s) =
      Except.ok ⟨dictUpdate A p (PyVal.dict (dictUpdate e "threat_score"
        (scoreValOf (pyStrip s)))), some p⟩ := by
  have hsplit : pySplitOnce ':' ("Threat Score:" ++ s) = some ("Threat Score", s) := rfl
  unfold stepOllama
  rw [hsplit]
  dsimp only
  have ht : truthyCur (some p) = true := by simp [truthyCur, hp]
  have h1 : (pyStrip "Threat Score" == "Process Name") = false := rfl
  have h2 : (pyStrip "Threat Score" == "Description") = false := rfl
  have h3 : (pyStrip "Threat Score" == "Threat Score") = true := rfl
  simp only [h1, h2, h3, ht, Bool.false_and, Bool.true_and, Bool.false_eq_true, if_false,
    if_true]
  rw [setItem_of_dlookup "threat_score" (scoreValOf (pyStrip s)) hA]

/-- C1: for every payload consisting of well-formed free-text blocks with
distinct process names (a Process Name line followed by Description, Threat
Score and continuation lines, names and score values without extra colons),
the Variant A (anthropic) and Variant B (openai) normalizers return the same
mapping with exactly one entry per block, in order, and the description of
each entry is the space-joined concatenation of the stripped Description
values and non-blank continuation lines of that block. -/
theorem C1 (bs : List Block) (hwf : WFBlocks bs) (hnd : (bs.map Block.name).Nodup)
    (hne : bs ≠ []) :
    analyze_processes_anthropic (payloadOf bs) =
      PyVal.dict (bs.map fun b => (b.name, entryOf b)) ∧
    analyze_processes_openai (payloadOf bs) =
      PyVal.dict (bs.map fun b => (b.name, entryOf b)) ∧
    keysOf (bs.map fun b => (b.name, entryOf b)) = bs.map Block.name ∧
    ∀ b ∈ bs, descrOf (PyVal.dict (bs.map fun x => (x.name, entryOf x))) b.name =
      some (joinSpace (contribs b.body)) := by
  have hfold : List.foldl updB [] bs = bs.map fun b => (b.name, entryOf b) := by
    have hm := foldl_updB_map bs [] hnd (fun b _ => rfl)
    simpa using hm
  have hA := analyzeA_blocks bs hwf hne
  rw [hfold] at hA
  refine ⟨hA, ?_, keysOf_map_blocks bs, ?_⟩
  · rw [analyzeO_eq]
    exact hA
  · intro b hb
    exact descrOf_of_dlookup_entryOf (dlookup_map_blocks bs b hnd hb)

/-- C1 witness: a concrete one-block payload whose description is the
space-joined Description value and continuation line. -/
theorem C1_witness :
    descrOf (analyze_processes_anthropic (payloadOf [Block.mk "a.exe"
        [BodyLine.descrLine " watches files", BodyLine.scoreLine " 2.5",
         BodyLine.contLine "and more"]])) "a.exe" = some "watches files and more" := by
  have h := C1 [Block.mk "a.exe" [BodyLine.descrLine " watches files",
      BodyLine.scoreLine " 2.5", BodyLine.contLine "and more"]]
    (by decide) (by decide) (by decide)
  rw [h.1]
  exact h.2.2.2 (Block.mk "a.exe" [BodyLine.descrLine " watches files",
      BodyLine.scoreLine " 2.5", BodyLine.contLine "and more"]) (List.mem_cons_self _ _)

/-- C4: in the free-text normalizer the stored entry for a name is built
entirely from the last block carrying that name: whatever blocks came
before, the final mapping stores exactly the entry produced by the last
occurrence, so no field from an earlier occurrence survives. -/
theorem C4 (pre post : List Block) (b₂ : Block)
    (hpost : ∀ b ∈ post, b.name ≠ b₂.name)
    (hwf : WFBlocks (pre ++ b₂ :: post)) :
    entryAt (analyze_processes_anthropic (payloadOf (pre ++ b₂ :: post))) b₂.name =
      some (entryOf b₂) := by
  have hne : pre ++ b₂ :: post ≠ [] := by
    cases pre with
    | nil => exact fun hcontra => by cases hcontra
    | cons x t => exact fun hcontra => by cases hcontra
  rw [analyzeA_blocks _ hwf hne]
  show dlookup b₂.name (List.foldl updB [] (pre ++ b₂ :: post)) = some (entryOf b₂)
  rw [List.foldl_append, List.foldl_cons,
    dlookup_foldl_updB_not_mem post (updB (List.foldl updB [] pre) b₂) b₂.name hpost]
  exact dlookup_dictUpdate_self b₂.name (entryOf b₂) (List.foldl updB [] pre)

/-- C4 witness: a payload naming x twice; the stored entry is the one of the
second block. -/
theorem C4_witness :
    entryAt (analyze_processes_anthropic (payloadOf
        [Block.mk "x" [BodyLine.descrLine " first"],
         Block.mk "x" [BodyLine.descrLine " second"]])) "x" =
      some (entryOf (Block.mk "x" [BodyLine.descrLine " second"])) :=
  C4 [Block.mk "x" [BodyLine.descrLine " first"]] []
    (Block.mk "x" [BodyLine.descrLine " second"])
    (fun b hb => absurd hb (List.not_mem_nil b)) (by decide)

/-- C10: the Variant A (anthropic) and Variant B (openai) free-text parsers
are extensionally equal: on every response content the two normalizers
return identical mappings, and the two parsing loops agree on every line
list. -/
theorem C10 (content : String) :
    analyze_processes_openai content = analyze_processes_anthropic content ∧
    ∀ lines : List String, parseO lines = parseA lines :=
  ⟨analyzeO_eq content, parseO_eq⟩

/-- C2 (amended): the Variant C (ollama) normalizer first tries to decode the
whole payload as JSON and, on success, accepts a decoded mapping verbatim as
the result; on decode failure it runs its own line-based fallback loop
(ollamaFallback) — which is NOT the Variant A/B algorithm: it splits each
line at its first colon, ignores lines without a colon, and overwrites the
description instead of accumulating continuation lines. -/
theorem C2 (t : String) :
    (∀ v, jsonLoads t = some v → isMapping v = true →
      analyze_processes_ollama (OllamaRaw.responseText t) = v) ∧
    (∀ a, jsonLoads t = Option.none → ollamaFallback t = Except.ok a →
      analyze_processes_ollama (OllamaRaw.responseText t) = PyVal.dict a) ∧
    (∀ e, jsonLoads t = Option.none → ollamaFallback t = Except.error e →
      analyze_processes_ollama (OllamaRaw.responseText t) = PyVal.dict []) := by
  refine ⟨?_, ?_, ?_⟩
  · intro v hj hm
    show ollamaNormalize t = v
    unfold ollamaNormalize
    rw [hj]
    cases v with
    | dict d => rfl
    | null => cases hm
    | bool b => cases hm
    | num q => cases hm
    | str s => cases hm
    | list l => cases hm
  · intro a hj hf
    show ollamaNormalize t = PyVal.dict a
    unfold ollamaNormalize
    rw [hj]
    dsimp only
    rw [hf]
  · intro e hj hf
    show ollamaNormalize t = PyVal.dict []
    unfold ollamaNormalize
    rw [hj]
    dsimp only
    rw [hf]

/-- C2 witness: a valid JSON mapping payload is accepted verbatim. -/
theorem C2_witness :
    analyze_processes_ollama (OllamaRaw.responseText
        "\x7b\"svchost.exe\": \x7b\"description\": \"system service host\", \"threat_score\": 1\x7d\x7d") =
      PyVal.dict [("svchost.exe", PyVal.dict [("description", PyVal.str "system service host"),
        ("threat_score", PyVal.num (mkRat 1 1))])] :=
  (C2 "\x7b\"svchost.exe\": \x7b\"description\": \"system service host\", \"threat_score\": 1\x7d\x7d").1
    (PyVal.dict [("svchost.exe", PyVal.dict [("description", PyVal.str "system service host"),
      ("threat_score", PyVal.num (mkRat 1 1))])]) rfl rfl

/-- C2 counterexample: on the same non-JSON payload the ollama fallback and
the Variant A/B algorithm produce different mappings — the fallback ignores
the continuation line while A/B append it to the description — refuting that
the fallback is the same algorithm. -/
theorem C2_counterexample :
    descrOf (analyze_processes_ollama (OllamaRaw.responseText
        "Process Name: p\nDescription: part one\ncontinuation line")) "p" =
      some "part one" ∧
    descrOf (analyze_processes_anthropic
        "Process Name: p\nDescription: part one\ncontinuation line") "p" =
      some "part one continuation line" ∧
    some "part one" ≠ some "part one continuation line" := ⟨rfl, rfl, by decide⟩

/-- C3 (amended): once a response was obtained, any exception during the
Variant A or B parsing is caught at the function boundary and the normalizer
returns a mapping; Variant C treats a backend-call failure or a missing
response field as the empty mapping. But the original claim fails twice:
a Variant A backend-call failure is NOT degraded to an empty result — the
except handler interpolates the unbound local response into its debug log
line and raises UnboundLocalError past the boundary, so no mapping is
returned (only Variant B degrades a call failure to the empty mapping) —
and the Variant C JSON branch accepts any decoded value whose len() is
defined, so a JSON string or JSON array payload is returned verbatim as a
NON-mapping. -/
theorem C3 :
    (∀ content, analyze_processes_anthropic_outcome
        (AnthropicRaw.responseContent content) =
        some (analyze_processes_anthropic content) ∧
      isMapping (analyze_processes_anthropic content) = true) ∧
    (∀ content, analyze_processes_openai_outcome
        (OpenaiRaw.responseContent content) =
        some (analyze_processes_openai content) ∧
      isMapping (analyze_processes_openai content) = true) ∧
    analyze_processes_anthropic_outcome AnthropicRaw.transportError = Option.none ∧
    analyze_processes_openai_outcome OpenaiRaw.transportError = some (PyVal.dict []) ∧
    analyze_processes_ollama OllamaRaw.transportError = PyVal.dict [] ∧
    analyze_processes_ollama OllamaRaw.missingResponse = PyVal.dict [] ∧
    (∀ t, isMapping (analyze_processes_ollama (OllamaRaw.responseText t)) = true ∨
      (∃ s, jsonLoads t = some (PyVal.str s) ∧
        analyze_processes_ollama (OllamaRaw.responseText t) = PyVal.str s) ∨
      (∃ l, jsonLoads t = some (PyVal.list l) ∧
        analyze_processes_ollama (OllamaRaw.responseText t) = PyVal.list l)) := by
  refine ⟨?_, ?_, rfl, rfl, rfl, rfl, ?_⟩
  · intro content
    refine ⟨rfl, ?_⟩
    unfold analyze_processes_anthropic
    cases parseA (pySplitLines content) with
    | ok a => rfl
    | error e => rfl
  · intro content
    refine ⟨rfl, ?_⟩
    unfold analyze_processes_openai
    cases parseO (pySplitLines content) with
    | ok a => rfl
    | error e => rfl
  · intro t
    cases hj : jsonLoads t with
    | none =>
      refine Or.inl ?_
      show isMapping (ollamaNormalize t) = true
      unfold ollamaNormalize
      rw [hj]
      dsimp only
      cases ollamaFallback t with
      | ok a => rfl
      | error e => rfl
    | some v =>
      cases v with
      | dict d =>
        refine Or.inl ?_
        show isMapping (ollamaNormalize t) = true
        unfold ollamaNormalize
        rw [hj]
        rfl
      | str s =>
        refine Or.inr (Or.inl ⟨s, rfl, ?_⟩)
        show ollamaNormalize t = PyVal.str s
        unfold ollamaNormalize
        rw [hj]
        rfl
      | list l =>
        refine Or.inr (Or.inr ⟨l, rfl, ?_⟩)
        show ollamaNormalize t = PyVal.list l
        unfold ollamaNormalize
        rw [hj]
        rfl
      | null =>
        refine Or.inl ?_
        show isMapping (ollamaNormalize t) = true
        unfold ollamaNormalize
        rw [hj]
        rfl
      | bool b =>
        refine Or.inl ?_
        show isMapping (ollamaNormalize t) = true
        unfold ollamaNormalize
        rw [hj]
        rfl
      | num q =>
        refine Or.inl ?_
        show isMapping (ollamaNormalize t) = true
        unfold ollamaNormalize
        rw [hj]
        rfl

/-- C3 counterexample: a JSON string payload makes the ollama normalizer
return a non-mapping value past its boundary, refuting that the
normalization step always results in a mapping; and a Variant A backend-call
failure escapes the boundary as an exception instead of degrading to an
empty mapping, refuting that every backend-call failure is caught. -/
theorem C3_counterexample :
    analyze_processes_ollama (OllamaRaw.responseText "\"not a mapping\"") =
      PyVal.str "not a mapping" ∧
    isMapping (PyVal.str "not a mapping") = false ∧
    analyze_processes_anthropic_outcome AnthropicRaw.transportError =
      Option.none := ⟨rfl, rfl, rfl⟩

/-- C5 (amended): a non-empty prefix of lines before the first Process Name
line is ignored by the free-text normalizer PROVIDED none of them is a
Threat Score line (a stray Threat Score line before any Process Name raises
KeyError, aborting the parse and discarding the whole payload); a payload
with no Process Name line at all yields the empty mapping; and blank lines
never change the parser state. -/
theorem C5 (pre : List String) (content : String) (hne : pre ≠ [])
    (hpre : ∀ l ∈ pre, '\n' ∉ l.data ∧ pyStartsWith l "Process Name:" = false ∧
      pyStartsWith l "Threat Score:" = false) :
    analyze_processes_anthropic (joinLines pre ++ "\n" ++ content) =
      analyze_processes_anthropic content ∧
    ((∀ l ∈ pySplitLines content, pyStartsWith l "Process Name:" = false) →
      analyze_processes_anthropic content = PyVal.dict []) ∧
    (∀ (st : ParseState) (l : String), pyStrip l = "" →
      stepAnthropic st l = Except.ok st) := by
  refine ⟨?_, ?_, fun st l h => stepA_blank st l h⟩
  · unfold analyze_processes_anthropic
    rw [pySplitLines_pre_append pre content hne (fun l hl => (hpre l hl).1)]
    simp only [parseA_runThenFlush]
    rw [preNoPNTS pre [] (pySplitLines content)
      (fun l hl => ⟨(hpre l hl).2.1, (hpre l hl).2.2⟩)]
  · intro hno
    unfold analyze_processes_anthropic
    simp only [parseA_runThenFlush]
    rcases noPN_result (pySplitLines content) [] hno with he | ⟨e, he⟩ <;> rw [he]

/-- C5 witness: a preamble line before the first Process Name line leaves
the result unchanged on a concrete payload. -/
theorem C5_witness :
    analyze_processes_anthropic ("preamble text" ++ "\n" ++
        "Process Name: x\nDescription: d") =
      analyze_processes_anthropic "Process Name: x\nDescription: d" :=
  (C5 ["preamble text"] "Process Name: x\nDescription: d" (by decide) (by decide)).1

/-- C5 counterexample: a stray Threat Score line before the first Process
Name line is NOT ignored — it aborts the parse, so the entry for x that the
same payload without the stray line produces is lost. -/
theorem C5_counterexample :
    descrOf (analyze_processes_anthropic
        "Threat Score: 9\nProcess Name: x\nDescription: d") "x" = Option.none ∧
    descrOf (analyze_processes_anthropic
        "Process Name: x\nDescription: d") "x" = some "d" := ⟨rfl, rfl⟩

/-- C6 (amended): on a Threat Score line with an open current process, the
Variant A/B loop parses the text BETWEEN THE FIRST AND SECOND colon
(split(chr(58))[1]) — not everything after the first colon — stripped, as a
float, while the Variant C fallback does use everything after the first
colon; in both, an unparseable value stores the string sentinel N/A instead
of raising, and a parseable value stores the parsed number. -/
theorem C6 :
    (∀ (A : List (String × PyVal)) (p : String) (e : List (String × PyVal))
       (ds : List String) (s : String), dlookup p A = some (PyVal.dict e) →
      stepAnthropic ⟨A, some p, ds⟩ ("Threat Score: " ++ s) =
        Except.ok ⟨dictUpdate A p (PyVal.dict (dictUpdate e "threat_score"
          (scoreValOf (pyStrip (untilColon s))))), some p, ds⟩) ∧
    (∀ (A : List (String × PyVal)) (p : String) (e : List (String × PyVal))
       (s : String), p ≠ "" → dlookup p A = some (PyVal.dict e) →
      stepOllama ⟨A, some p⟩ ("Threat Score:" ++ s) =
        Except.ok ⟨dictUpdate A p (PyVal.dict (dictUpdate e "threat_score"
          (scoreValOf (pyStrip s)))), some p⟩) ∧
    (∀ txt, parseFloat txt = Option.none → scoreValOf txt = PyVal.str "N/A") ∧
    (∀ txt q, parseFloat txt = some q → scoreValOf txt = PyVal.num q) := by
  refine ⟨?_, stepOll_ts, ?_, ?_⟩
  · intro A p e ds s hA
    rw [stepA_ts ⟨A, some p, ds⟩ s]
    dsimp only
    rw [setItem_of_dlookup "threat_score" (scoreValOf (pyStrip (untilColon s))) hA]
  · intro txt h
    unfold scoreValOf
    rw [h]
  · intro txt q h
    unfold scoreValOf
    rw [h]

/-- C6 witness: with an open process x, an ollama Threat Score line whose
value text contains a colon is taken whole and stores the N/A sentinel. -/
theorem C6_witness :
    stepOllama ⟨[("x", PyVal.dict [])], some "x"⟩ ("Threat Score:" ++ " 1:2") =
      Except.ok ⟨dictUpdate [("x", PyVal.dict [])] "x" (PyVal.dict (dictUpdate []
        "threat_score" (scoreValOf (pyStrip " 1:2")))), some "x"⟩ ∧
    scoreValOf "1:2" = PyVal.str "N/A" :=
  ⟨C6.2.1 [("x", PyVal.dict [])] "x" [] " 1:2" (by decide) rfl,
   C6.2.2.1 "1:2" rfl⟩

/-- C6 counterexample: on the A/B path the stored score for a Threat Score
line reading 1:2 is the number 1 (the text between the first and second
colon), even though the text after the first colon, 1:2, is not a valid
float — so the claim that the text after the first colon is parsed is wrong
for Variants A and B. -/
theorem C6_counterexample :
    threatOf (analyze_processes_anthropic
        "Process Name: x\nThreat Score: 1:2") "x" = some (PyVal.num (mkRat 1 1)) ∧
    pyStrip (afterFirstColon "Threat Score: 1:2") = "1:2" ∧
    parseFloat "1:2" = Option.none ∧
    scoreValOf "1:2" = PyVal.str "N/A" := ⟨rfl, rfl, rfl, rfl⟩

/-- C7: for every snapshot and every well-typed AnalysisResult mapping, the
report contains exactly one section per ProcessRecord, in order; a process
whose entry carries a description shows that description (with the Typical
function label removed and stripped) and gets a search link only when the
description literally equals the fallback text, while a process with no
analysis description shows the fallback text together with a web-search
hyperlink generated from the process name. -/
theorem C7 (ps : List ProcessRecord) (a : List (String × PyVal))
    (hwf : WFAnalysis (PyVal.dict a) = true) :
    generate_report ps (PyVal.dict a) = Except.ok (ps.map (sectionOf (PyVal.dict a))) ∧
    ∀ p : ProcessRecord,
      (sectionOf (PyVal.dict a) p).name = p.name ∧
      (match descrOf (PyVal.dict a) p.name with
       | some d =>
         (sectionOf (PyVal.dict a) p).descriptionShown =
             pyStrip (pyReplaceOnceEmpty "Typical function:" d) ∧
           (sectionOf (PyVal.dict a) p).searchLink =
             (if d == "No analysis available" then some (searchURL p.name)
              else Option.none)
       | Option.none =>
         (sectionOf (PyVal.dict a) p).descriptionShown = "No analysis available" ∧
           (sectionOf (PyVal.dict a) p).searchLink = some (searchURL p.name)) := by
  refine ⟨generate_report_wf ps a hwf, fun p => ⟨sectionOf_name _ p, ?_⟩⟩
  cases hd : descrOf (PyVal.dict a) p.name with
  | some d =>
    exact sectionOf_shown (PyVal.dict a) p d (rawDescription_of_descrOf_some hd)
  | none =>
    have hs := sectionOf_shown (PyVal.dict a) p "No analysis available"
      (rawDescription_of_descrOf_none hwf hd)
    refine ⟨?_, ?_⟩
    · rw [hs.1]
      rfl
    · rw [hs.2]
      rfl

/-- C7 witness: a two-process snapshot where only the first process has an
analysis entry renders one section per process. -/
theorem C7_witness :
    generate_report
        [⟨1, "a.exe", "p1", "running", "u", mkRat 0 1, mkRat 0 1⟩,
         ⟨2, "b.exe", "p2", "running", "u", mkRat 0 1, mkRat 0 1⟩]
        (PyVal.dict [("a.exe", PyVal.dict [("description", PyVal.str "text editor"),
          ("threat_score", PyVal.num (mkRat 1 1))])]) =
      Except.ok
        ([⟨1, "a.exe", "p1", "running", "u", mkRat 0 1, mkRat 0 1⟩,
          ⟨2, "b.exe", "p2", "running", "u", mkRat 0 1, mkRat 0 1⟩].map
          (sectionOf (PyVal.dict [("a.exe", PyVal.dict
            [("description", PyVal.str "text editor"),
             ("threat_score", PyVal.num (mkRat 1 1))])]))) :=
  (C7 [⟨1, "a.exe", "p1", "running", "u", mkRat 0 1, mkRat 0 1⟩,
       ⟨2, "b.exe", "p2", "running", "u", mkRat 0 1, mkRat 0 1⟩]
    [("a.exe", PyVal.dict [("description", PyVal.str "text editor"),
      ("threat_score", PyVal.num (mkRat 1 1))])] (by decide)).1

/-- C8: in every successfully rendered section, a threat score that float()
accepts keeps its value q as sort key and display and is bucketed low below
4, medium in [4,7) and high at or above 7; a score that float() rejects with
ValueError gets sort value -1, N/A display (no numeric display) and the low
bucket; and -1 is strictly below every score in [0,10], so N/A entries sort
below all valid scores under descending score sort. -/
theorem C8 (analysis : PyVal) (p : ProcessRecord) (sec : ReportSection)
    (h : renderSection analysis p = Except.ok sec) :
    (∀ q, pyFloat (rawThreatScore analysis p.name) = Except.ok q →
      sec.threat_score_num = q ∧ sec.threat_score_display = some q ∧
      sec.threat_class =
        (if q < 4 then "threat-low" else if q < 7 then "threat-medium"
         else "threat-high")) ∧
    (pyFloat (rawThreatScore analysis p.name) = Except.error PyError.valueError →
      sec.threat_score_num = -1 ∧ sec.threat_score_display = Option.none ∧
      sec.threat_class = "threat-low") ∧
    (∀ q : ℚ, 0 ≤ q → (-1 : ℚ) < q) := by
  have hc := renderSection_score_char analysis p sec h
  refine ⟨?_, ?_, fun q hq => by linarith⟩
  · intro q hq
    rw [hq] at hc
    have hc2 : sec.threat_score_num = q ∧ sec.threat_score_display = some q ∧
        sec.threat_class = bucketClass q := hc
    exact ⟨hc2.1, hc2.2.1, hc2.2.2⟩
  · intro hq
    rw [hq] at hc
    have hc2 : PyError.valueError = PyError.valueError ∧ sec.threat_score_num = -1 ∧
        sec.threat_score_display = Option.none ∧ sec.threat_class = "threat-low" := hc
    exact hc2.2

/-- C8 witness: a process with the parseable score text 9.5 keeps 19/2 as
sort key and display and is bucketed high. -/
theorem C8_witness :
    (ReportSection.mk "x" "u" "running" (mkRat 19 2) (some (mkRat 19 2)) "threat-high"
        "d" Option.none).threat_score_num = mkRat 19 2 ∧
    (ReportSection.mk "x" "u" "running" (mkRat 19 2) (some (mkRat 19 2)) "threat-high"
        "d" Option.none).threat_score_display = some (mkRat 19 2) ∧
    (ReportSection.mk "x" "u" "running" (mkRat 19 2) (some (mkRat 19 2)) "threat-high"
        "d" Option.none).threat_class =
      (if mkRat 19 2 < 4 then "threat-low" else if mkRat 19 2 < 7 then "threat-medium"
       else "threat-high") :=
  (C8 (PyVal.dict [("x", PyVal.dict [("description", PyVal.str "d"),
      ("threat_score", PyVal.str "9.5")])])
    ⟨1, "x", "exe", "running", "u", mkRat 0 1, mkRat 0 1⟩
    (ReportSection.mk "x" "u" "running" (mkRat 19 2) (some (mkRat 19 2)) "threat-high"
      "d" Option.none) rfl).1 (mkRat 19 2) rfl

/-- C9: the run-abort policy is violated by the code — a backend payload
the ollama normalizer accepts verbatim (valid JSON whose threat_score is
null) makes float(threat_score) in generate_report raise an uncaught
TypeError, so the report stage aborts and no report is rendered, saved or
displayed, contradicting the policy that a parsing failure never prevents a
degraded report. -/
theorem C9 :
    analyze_processes_ollama (OllamaRaw.responseText
        "\x7b\"x\": \x7b\"description\": \"d\", \"threat_score\": null\x7d\x7d") =
      PyVal.dict [("x", PyVal.dict [("description", PyVal.str "d"),
        ("threat_score", PyVal.null)])] ∧
    mainReportStage [⟨1, "x", "exe", "running", "u", mkRat 0 1, mkRat 0 1⟩]
      (PyVal.dict [("x", PyVal.dict [("description", PyVal.str "d"),
        ("threat_score", PyVal.null)])]) = Option.none := ⟨rfl, rfl⟩
